import Mathlib

/-!
TSAL dynamics compressor, routing node and channel.

A shallow embedding of `src/src/Compressor.cpp`; the routing node and the channel, whose
member functions are not among the sources, are modelled from the specification.

* `double` values are elements of a linear ordered field `α` (`ℚ` for evaluation, `ℝ` for the
  statements about `10^(dB/20)`); comparisons of finite doubles are exact, so the parameter
  checks are the same on both. NaN and the infinities are outside the model.
* The fixed-size arrays `mBuffer` and `mEnvelope` of length `COMPRESSOR_MAX_BUFFER` are
  functions `Fin B → α`; the block size `B` is a parameter because the header that defines
  the constant is not part of the sources.
* The cursor `mCurrentSample` and the loop counters are natural numbers; `getOutput` returns
  `none` where the source would read `mBuffer` past its end, so the cursor never exceeds `B`
  on a returning call and unsigned wrap-around does not arise.
* The upstream device read by `getInput()` is a sample sequence together with the number of
  samples already pulled.
* `std::pow`, `std::exp` and `Mixer::getSampleRate()` are supplied by a `MathEnv`.
* A division by zero gives an infinity in the source, which an ordered field does not have:
  at `mRatio = 0` the source's `1.0 - 1.0 / mRatio` is `-inf`, while the field reads `1 / 0`
  as `0`. The model of `calculateSlope` is therefore the source's only for a non-zero ratio,
  and the statements about the slope or about filtered samples assume one.
-/

namespace tsal

set_option linter.unusedSectionVars false

/-- The pair of bounds `std::pair<double, double>` used by the setters. -/
abbrev ParameterRange (α : Type) := α × α

/-- Library functions and the shared sample rate used by the compressor. -/
structure MathEnv (α : Type) where
  /-- The function `std::pow`. -/
  pow : α → α → α
  /-- The function `std::exp`. -/
  exp : α → α
  /-- The value of `Mixer::getSampleRate()`. -/
  sampleRate : α

/-- The upstream device of an effect: its sample sequence and how many samples were pulled. -/
structure Upstream (α : Type) where
  samples : Nat → α
  pulled : Nat

/-- The member variables of `Compressor`. -/
structure Compressor (α : Type) (B : Nat) where
  mActive : Bool
  mCurrentSample : Nat
  mBuffer : Fin B → α
  mEnvelope : Fin B → α
  mEnvelopeSample : α
  mAttackGain : α
  mReleaseGain : α
  mThreshold : α
  mRatio : α
  mPreGain : α
  mPostGain : α
  mSlope : α
  mGain : α

section Defs

variable {α : Type} [LinearOrderedField α] {B : Nat}

/-- One call of `getInput()`: the next upstream sample, and the upstream advanced by one. -/
def getInput (u : Upstream α) : α × Upstream α :=
  (u.samples u.pulled, { u with pulled := u.pulled + 1 })

/-- A counted loop `for (unsigned i = 0; i < k; i++) body(i)` with `k ≤ B`. -/
def forLoop {σ : Type} (B : Nat) (body : Fin B → σ → σ) : (k : Nat) → k ≤ B → σ → σ
  | 0, _, s => s
  | k + 1, h, s => body ⟨k, h⟩ (forLoop B body k (Nat.le_of_succ_le h) s)

/-- The static member `mAttackTimeRange`. -/
def mAttackTimeRange : ParameterRange α := (0, 2000)

/-- The static member `mReleaseTimeRange`. -/
def mReleaseTimeRange : ParameterRange α := (0, 2000)

/-- The static member `mThresholdRange`. -/
def mThresholdRange : ParameterRange α := (-30, 400)

/-- The static member `mRatioRange`. -/
def mRatioRange : ParameterRange α := (1, 20)

/-- The static member `mGainRange`. -/
def mGainRange : ParameterRange α := (-30, 30)

/-- The function `Compressor::checkParameterRange`: the returned flag `outOfRange`; the
diagnostic line is printed exactly when the flag is true. -/
def checkParameterRange (value : α) (range : ParameterRange α) : Bool :=
  decide (range.1 ≤ value) && decide (value ≥ range.2)

/-- The function `Compressor::dbToAmp`. -/
def dbToAmp (env : MathEnv α) (db : α) : α :=
  env.pow 10 (db / 20)

/-- The function `Compressor::calculateSlope`. It agrees with the source for `mRatio ≠ 0`;
at `mRatio = 0` the source stores `-inf`, which is outside the model. -/
def calculateSlope (c : Compressor α B) : Compressor α B :=
  { c with mSlope := 1 - 1 / c.mRatio }

/-- The function `Compressor::setAttackTime`. -/
def setAttackTime (env : MathEnv α) (attackTime : α) (c : Compressor α B) : Compressor α B :=
  if checkParameterRange attackTime mAttackTimeRange then c
  else { c with mAttackGain :=
    if attackTime = 0 then 0 else env.exp (-1 / (env.sampleRate * attackTime / 1000)) }

/-- The function `Compressor::setReleaseTime`. -/
def setReleaseTime (env : MathEnv α) (releaseTime : α) (c : Compressor α B) : Compressor α B :=
  if checkParameterRange releaseTime mReleaseTimeRange then c
  else { c with mReleaseGain :=
    if releaseTime = 0 then 0 else env.exp (-1 / (env.sampleRate * releaseTime / 1000)) }

/-- The function `Compressor::setThreshold`. -/
def setThreshold (threshold : α) (c : Compressor α B) : Compressor α B :=
  if checkParameterRange threshold mThresholdRange then c
  else { c with mThreshold := threshold }

/-- The function `Compressor::setRatio`. -/
def setRatio (ratio : α) (c : Compressor α B) : Compressor α B :=
  if checkParameterRange ratio mRatioRange then c
  else { c with mRatio := ratio }

/-- The function `Compressor::setPreGain`. -/
def setPreGain (preGain : α) (c : Compressor α B) : Compressor α B :=
  if checkParameterRange preGain mGainRange then c
  else { c with mPreGain := preGain }

/-- The function `Compressor::setPostGain`. -/
def setPostGain (postGain : α) (c : Compressor α B) : Compressor α B :=
  if checkParameterRange postGain mGainRange then c
  else { c with mPostGain := postGain }

/-- The constructor `Compressor::Compressor`, run on the default-initialised members. -/
def Compressor.construct (env : MathEnv α) (init : Compressor α B) : Compressor α B :=
  setReleaseTime env 1500 (setAttackTime env 1 init)

/-- The loop body of `Compressor::getEnvelope` at index `i`. -/
def envelopeBody (i : Fin B) (s : Compressor α B) : Compressor α B :=
  let envIn := |s.mBuffer i|
  let gain := if s.mEnvelopeSample < envIn then s.mAttackGain else s.mReleaseGain
  let e := envIn + gain * (s.mEnvelopeSample - envIn)
  { s with mEnvelopeSample := e, mEnvelope := Function.update s.mEnvelope i e }

/-- The function `Compressor::getEnvelope`. -/
def getEnvelope (c : Compressor α B) : Compressor α B :=
  forLoop B envelopeBody B (Nat.le_refl B) c

/-- The body of the pre-gain loop of `Compressor::filterAudio` at index `i`. -/
def preGainBody (preGainAmp : α) (i : Fin B) (s : Compressor α B) : Compressor α B :=
  { s with mBuffer := Function.update s.mBuffer i (s.mBuffer i * preGainAmp) }

/-- The body of the gain loop of `Compressor::filterAudio` at index `i`. -/
def gainBody (env : MathEnv α) (postGainAmp : α) (i : Fin B) (s : Compressor α B) :
    Compressor α B :=
  let g1 := s.mSlope * (s.mThreshold - s.mEnvelope i)
  let g2 := min 0 g1
  let g3 := dbToAmp env g2
  { s with mGain := g3, mBuffer := Function.update s.mBuffer i (s.mBuffer i * (g3 * postGainAmp)) }

/-- The pre-gain stage of `Compressor::filterAudio` (the `if (mPreGain != 0.0)` block). -/
def applyPreGain (env : MathEnv α) (c : Compressor α B) : Compressor α B :=
  if c.mPreGain ≠ 0 then
    let preGainAmp := dbToAmp env c.mPreGain
    forLoop B (preGainBody preGainAmp) B (Nat.le_refl B) c
  else c

/-- The function `Compressor::filterAudio`. -/
def filterAudio (env : MathEnv α) (c : Compressor α B) : Compressor α B :=
  let postGainAmp := dbToAmp env c.mPostGain
  let c1 := applyPreGain env c
  let c2 := getEnvelope c1
  let c3 := calculateSlope c2
  forLoop B (gainBody env postGainAmp) B (Nat.le_refl B) c3

/-- The state of `Compressor::filterAudio` when its gain loop has run `k` iterations; after
iteration `i` the member `mGain` holds the linear gain factor the loop computed for sample
`i`, and with `k = B` this is `filterAudio` itself. -/
def filterAudioUpTo (env : MathEnv α) (c : Compressor α B) (k : Nat) (h : k ≤ B) :
    Compressor α B :=
  let postGainAmp := dbToAmp env c.mPostGain
  let c1 := applyPreGain env c
  let c2 := getEnvelope c1
  let c3 := calculateSlope c2
  forLoop B (gainBody env postGainAmp) k h c3

/-- The body of the refill loop of `Compressor::getOutput` at index `i`. -/
def refillBody (i : Fin B) (s : Compressor α B × Upstream α) : Compressor α B × Upstream α :=
  let x := getInput s.2
  ({ s.1 with mBuffer := Function.update s.1.mBuffer i x.1 }, x.2)

/-- The refill branch of `Compressor::getOutput` (the body of the test
`mCurrentSample == COMPRESSOR_MAX_BUFFER`). -/
def refill (env : MathEnv α) (c : Compressor α B) (u : Upstream α) :
    Compressor α B × Upstream α :=
  let r := forLoop B refillBody B (Nat.le_refl B) ({ c with mCurrentSample := 0 }, u)
  (filterAudio env r.1, r.2)

/-- The function `Compressor::getOutput`: the returned sample with the new compressor and
upstream states, or `none` when `mBuffer` would be read past its end. -/
def getOutput (env : MathEnv α) (c : Compressor α B) (u : Upstream α) :
    Option (α × Compressor α B × Upstream α) :=
  if !c.mActive then
    let x := getInput u
    some (x.1, c, x.2)
  else
    let r := if c.mCurrentSample = B then refill env c u else (c, u)
    if h : r.1.mCurrentSample < B then
      some (r.1.mBuffer ⟨r.1.mCurrentSample, h⟩,
        { r.1 with mCurrentSample := r.1.mCurrentSample + 1 }, r.2)
    else none

/-- Successive calls: `n` calls of `getOutput`, collecting the returned samples in order. -/
def getOutputs (env : MathEnv α) : Nat → Compressor α B → Upstream α →
    Option (List α × Compressor α B × Upstream α)
  | 0, c, u => some ([], c, u)
  | n + 1, c, u =>
    match getOutput env c u with
    | none => none
    | some (x, c1, u1) =>
      match getOutputs env n c1 u1 with
      | none => none
      | some (xs, c2, u2) => some (x :: xs, c2, u2)

/-- One call on the public interface of the compressor. -/
inductive Call (α : Type) where
  | attackTime (v : α)
  | releaseTime (v : α)
  | threshold (v : α)
  | ratio (v : α)
  | preGain (v : α)
  | postGain (v : α)
  | output

/-- The effect of one interface call on the compressor and its upstream; `none` when a
`getOutput()` call would read `mBuffer` past its end. -/
def applyCall (env : MathEnv α) (s : Compressor α B × Upstream α) :
    Call α → Option (Compressor α B × Upstream α)
  | Call.attackTime v => some (setAttackTime env v s.1, s.2)
  | Call.releaseTime v => some (setReleaseTime env v s.1, s.2)
  | Call.threshold v => some (setThreshold v s.1, s.2)
  | Call.ratio v => some (setRatio v s.1, s.2)
  | Call.preGain v => some (setPreGain v s.1, s.2)
  | Call.postGain v => some (setPostGain v s.1, s.2)
  | Call.output => (getOutput env s.1 s.2).map (fun r => r.2)

/-- A sequence of interface calls, run in order. -/
def applyCalls (env : MathEnv α) :
    List (Call α) → Compressor α B × Upstream α → Option (Compressor α B × Upstream α)
  | [], s => some s
  | call :: rest, s =>
    match applyCall env s call with
    | none => none
    | some s1 => applyCalls env rest s1

/-- Modelled from the spec: an `OutputDevice` registered with a routing node (the classes
`OutputDevice`, `Instrument` and `Oscillator` are not among the sources): an identity, the
sample source behind its `getOutput()`, its gain and its activity flag. -/
structure Device (α : Type) where
  id : Nat
  source : Upstream α
  gain : α
  active : Bool

/-- Modelled from the spec: one child after it was pulled once. -/
def Device.pulledOnce (d : Device α) : Device α :=
  { d with source := (getInput d.source).2 }

/-- Modelled from the spec: `RouteDevice::add` (the class template `RouteDevice` is not among
the sources): registers the device, and is a no-op when it is already registered. -/
def RouteDevice.add (d : Device α) (ds : List (Device α)) : List (Device α) :=
  if ds.any (fun e => e.id == d.id) then ds else ds ++ [d]

/-- Modelled from the spec: `RouteDevice::remove` (the class template `RouteDevice` is not
among the sources): unregisters the device, and is a no-op when it is not registered. -/
def RouteDevice.remove (id : Nat) (ds : List (Device α)) : List (Device α) :=
  ds.filter (fun e => e.id != id)

/-- Modelled from the spec: the summing loop of `RouteDevice::getOutput` (the class template
`RouteDevice` is not among the sources), in registration order with the running sum `acc`:
every child is pulled once, and the active ones add `getOutput() * gain`. -/
def RouteDevice.sumLoop (acc : α) : List (Device α) → α × List (Device α)
  | [] => (acc, [])
  | d :: ds =>
    let x := getInput d.source
    let r := RouteDevice.sumLoop (if d.active then acc + x.1 * d.gain else acc) ds
    (r.1, { d with source := x.2 } :: r.2)

/-- Modelled from the spec: `RouteDevice::getOutput` (the class template `RouteDevice` is not
among the sources): the sum over the registered active devices of `getOutput() * gain`, which
is 0 when there is none, and the devices after the pull. -/
def RouteDevice.getOutput (ds : List (Device α)) : α × List (Device α) :=
  RouteDevice.sumLoop 0 ds

/-- Modelled from the spec: what the input of an effect, or the chain end of a channel, refers
to: the routing sum of the channel (a null `mEffectChainEnd`), or an effect. -/
inductive Link where
  | route
  | effect (id : Nat)
  deriving DecidableEq

/-- Modelled from the spec: a `Channel` together with the effects it can refer to (the member
functions declared in `Channel.h` are defined outside the sources, and so is `Effect`):
`mChannelIn` and `mEffectChainEnd` are the members of the class, `input e` is the input link
of effect `e`, and `process e` is what effect `e` does to a sample pulled from its input. -/
structure Channel (α : Type) where
  mChannelIn : List (Device α)
  mEffectChainEnd : Link
  input : Nat → Link
  process : Nat → α → α

/-- Modelled from the spec: `Channel::add(Instrument*)` and `Channel::add(Channel*)` (defined
outside the sources), which delegate to the routing node. -/
def Channel.addDevice (d : Device α) (ch : Channel α) : Channel α :=
  { ch with mChannelIn := RouteDevice.add d ch.mChannelIn }

/-- Modelled from the spec: `Channel::add(Effect*)` (defined outside the sources): the new
effect's input is wired to the current chain end, or to the routing sum when the chain is
empty, and the new effect becomes the chain end. -/
def Channel.addEffect (e : Nat) (ch : Channel α) : Channel α :=
  { ch with
    input := Function.update ch.input e ch.mEffectChainEnd
    mEffectChainEnd := Link.effect e }

/-- Modelled from the spec: `Channel::remove(Effect*)` (defined outside the sources): whatever
referred to the removed effect, the chain end or the input of another effect, is re-linked to
the removed effect's input. -/
def Channel.removeEffect (e : Nat) (ch : Channel α) : Channel α :=
  { ch with
    input := fun k => if ch.input k = Link.effect e then ch.input e else ch.input k
    mEffectChainEnd :=
      if ch.mEffectChainEnd = Link.effect e then ch.input e else ch.mEffectChainEnd }

/-- Modelled from the spec: the output at a link of the effect chain (`Effect::getOutput` is
not among the sources), given the routing sum of this pull: the routing sum itself, or the
effect applied to the output at its input link. `none` when the chain is longer than `fuel`. -/
def Channel.outputAt (ch : Channel α) (sum : α) : Nat → Link → Option α
  | _, Link.route => some sum
  | 0, Link.effect _ => none
  | fuel + 1, Link.effect e => (Channel.outputAt ch sum fuel (ch.input e)).map (ch.process e)

/-- Modelled from the spec: `Channel::getOutput` (defined outside the sources): the routing
node is pulled once and the result is the output at the chain end, which is the routing sum
when the chain is empty. -/
def Channel.getOutput (fuel : Nat) (ch : Channel α) : Option (α × Channel α) :=
  let r := RouteDevice.getOutput ch.mChannelIn
  (Channel.outputAt ch r.1 fuel ch.mEffectChainEnd).map
    (fun x => (x, { ch with mChannelIn := r.2 }))

/-- The three voices of `tests/chord.cpp` as devices: gain 0.1 each, with the samples 1, 2
and 3 standing in for what the oscillators produce on the next pull. -/
def chordVoices : List (Device ℚ) :=
  [ { id := 0, source := { samples := fun _ => 1, pulled := 0 }, gain := 1 / 10, active := true },
    { id := 1, source := { samples := fun _ => 2, pulled := 0 }, gain := 1 / 10, active := true },
    { id := 2, source := { samples := fun _ => 3, pulled := 0 }, gain := 1 / 10, active := true } ]

/-- A channel with nothing registered and an empty effect chain. -/
def emptyChannel : Channel ℚ :=
  { mChannelIn := [], mEffectChainEnd := Link.route, input := fun _ => Link.route,
    process := fun _ x => x }

/-- The array `a` read at a natural index, with value 0 past its end. -/
def atIndex (a : Fin B → α) (i : Nat) : α :=
  if h : i < B then a ⟨i, h⟩ else 0

/-- The envelope recurrence as the specification words it: `envelopeSeq .. 0` is the prior
envelope state `e_prev`, and `envelopeSeq .. (i + 1)` is `e_i = peak_i + c_i * (e_{i-1} - peak_i)`
where `peak_i = |x i|` and `c_i` is the attack coefficient when `peak_i` exceeds `e_{i-1}` and
the release coefficient otherwise. -/
def envelopeSeq (attack release ePrev : α) (x : Nat → α) : Nat → α
  | 0 => ePrev
  | i + 1 =>
    let peak := |x i|
    let prev := envelopeSeq attack release ePrev x i
    peak + (if peak > prev then attack else release) * (prev - peak)

/-- The next `B` upstream samples, in the order in which a refill pulls them. -/
def upstreamBlock (u : Upstream α) : Fin B → α :=
  fun i => u.samples (u.pulled + i.val)

/-- The compressor and upstream states once `m` whole blocks have been refilled and then
consumed, starting from a state whose cursor stands at the block size. -/
def afterBlocks (env : MathEnv α) :
    Nat → Compressor α B × Upstream α → Compressor α B × Upstream α
  | 0, s => s
  | m + 1, s =>
    let r := refill env (afterBlocks env m s).1 (afterBlocks env m s).2
    ({ r.1 with mCurrentSample := B }, r.2)

/-- The compressor and upstream states expected after `n` calls of `getOutput` that started
with the cursor at the block size: `n / B` whole blocks consumed and, when `n` is not a
multiple of `B`, one more block refilled with the cursor at `n % B`. -/
def stateAfter (env : MathEnv α) (c : Compressor α B) (u : Upstream α) (n : Nat) :
    Compressor α B × Upstream α :=
  if n % B = 0 then afterBlocks env (n / B) (c, u)
  else
    let r := refill env (afterBlocks env (n / B) (c, u)).1 (afterBlocks env (n / B) (c, u)).2
    ({ r.1 with mCurrentSample := n % B }, r.2)

/-- A two-sample compressor with threshold 50 and ratio 2, active, with its cursor at the
block size. -/
def demoOver (α : Type) [LinearOrderedField α] : Compressor α 2 :=
  { mActive := true, mCurrentSample := 2, mBuffer := fun _ => 0, mEnvelope := fun _ => 0,
    mEnvelopeSample := 0, mAttackGain := 0, mReleaseGain := 0, mThreshold := 50, mRatio := 2,
    mPreGain := 0, mPostGain := 0, mSlope := 0, mGain := 0 }

/-- The compressor `demoOver` set up for the worked example: threshold -10, ratio 4, and an
attack coefficient 3 with a block of ones, which drives the envelope from 0 to -2. -/
def demoWorked (α : Type) [LinearOrderedField α] : Compressor α 2 :=
  { demoOver α with
    mThreshold := -10
    mRatio := 4
    mAttackGain := 3
    mBuffer := fun _ => 1 }

/-- The compressor `demoOver` over `ℚ`, used to evaluate the setters. -/
def demo : Compressor ℚ 2 := demoOver ℚ

/-- The compressor `demo` with attack coefficient 1/2, release coefficient 1/4 and the block
`-1, 0` in its buffer. -/
def demoSmooth : Compressor ℚ 2 :=
  { demo with
    mAttackGain := 1 / 2
    mReleaseGain := 1 / 4
    mBuffer := fun j => (j.val : ℚ) - 1 }

/-- Stand-ins for the library functions over `ℚ`, used to evaluate the block logic. -/
def demoEnv : MathEnv ℚ :=
  { pow := fun _ _ => 1, exp := fun _ => 1 / 2, sampleRate := 44100 }

/-- An upstream producing 0, 1/10, 2/10, ... of which nothing has been pulled yet. -/
def demoUpstream : Upstream ℚ :=
  { samples := fun k => (k : ℚ) / 10, pulled := 0 }

end Defs

section Setters

variable {α : Type} [LinearOrderedField α] {B : Nat}

theorem checkParameterRange_eq_true_iff (value : α) (range : ParameterRange α) :
    checkParameterRange value range = true ↔ range.1 ≤ value ∧ range.2 ≤ value := by
  simp [checkParameterRange]

theorem checkParameterRange_of_lt (value : α) (range : ParameterRange α)
    (h : value < range.2) : checkParameterRange value range = false := by
  simp [checkParameterRange, h]

/-- C1: a request below the lower bound is not rejected. `setRatio(0.5)`, `setThreshold(-31)`
and `setPreGain(-40)` all pass `checkParameterRange` and overwrite the stored parameter. -/
theorem setters_accept_below_low :
    checkParameterRange (1 / 2 : ℚ) mRatioRange = false ∧
    demo.mRatio = 2 ∧ (setRatio (1 / 2) demo).mRatio = 1 / 2 ∧
    checkParameterRange (-31 : ℚ) mThresholdRange = false ∧
    demo.mThreshold = 50 ∧ (setThreshold (-31) demo).mThreshold = -31 ∧
    checkParameterRange (-40 : ℚ) mGainRange = false ∧
    demo.mPreGain = 0 ∧ (setPreGain (-40) demo).mPreGain = -40 := by
  simp [checkParameterRange, setRatio, setThreshold, setPreGain, mRatioRange, mThresholdRange,
    mGainRange, demo, demoOver]
  norm_num

/-- C2: the upper endpoint of a range is rejected. `setRatio(20)` and `setPostGain(30)` fail
`checkParameterRange` and leave the stored ratio 2 and post gain 0 as they were. -/
theorem setters_reject_upper_endpoint :
    checkParameterRange (20 : ℚ) mRatioRange = true ∧
    demo.mRatio = 2 ∧ (setRatio 20 demo).mRatio = 2 ∧
    checkParameterRange (30 : ℚ) mGainRange = true ∧
    demo.mPostGain = 0 ∧ (setPostGain 30 demo).mPostGain = 0 := by
  simp [checkParameterRange, setRatio, setPostGain, mRatioRange, mGainRange, demo, demoOver]

/-- C3, as stated, fails: on the ascending range `(1, 20)` the out-of-range test is true for
the value 25, and `setRatio(25)` is rejected. -/
theorem checkParameterRange_not_always_false :
    ¬ (∀ low high value : ℚ, low < high → checkParameterRange value (low, high) = false) := by
  intro h
  have h1 := h 1 20 25 (by norm_num)
  simp [checkParameterRange] at h1
  norm_num at h1

/-- C3, amended: on an ascending range the out-of-range test is false for every value below
the upper bound, so no setter rejects a value below the upper bound of its range (values
below the lower bound included). -/
theorem checkParameterRange_false_below_high (low high value : α) (h : low < high)
    (hv : value < high) :
    checkParameterRange value (low, high) = false ∧
    (∀ (env : MathEnv α) (c : Compressor α B) (v : α), v < 2000 →
      checkParameterRange v (mAttackTimeRange : ParameterRange α) = false ∧
      checkParameterRange v (mReleaseTimeRange : ParameterRange α) = false ∧
      (setAttackTime env v c).mAttackGain =
        (if v = 0 then 0 else env.exp (-1 / (env.sampleRate * v / 1000))) ∧
      (setReleaseTime env v c).mReleaseGain =
        (if v = 0 then 0 else env.exp (-1 / (env.sampleRate * v / 1000)))) ∧
    (∀ (c : Compressor α B) (v : α), v < 400 →
      checkParameterRange v (mThresholdRange : ParameterRange α) = false ∧
      (setThreshold v c).mThreshold = v) ∧
    (∀ (c : Compressor α B) (v : α), v < 20 →
      checkParameterRange v (mRatioRange : ParameterRange α) = false ∧
      (setRatio v c).mRatio = v) ∧
    (∀ (c : Compressor α B) (v : α), v < 30 →
      checkParameterRange v (mGainRange : ParameterRange α) = false ∧
      (setPreGain v c).mPreGain = v ∧ (setPostGain v c).mPostGain = v) := by
  have _ := h
  refine ⟨checkParameterRange_of_lt _ _ hv, ?_, ?_, ?_, ?_⟩
  · intro env c v hlt
    have h1 : checkParameterRange v (mAttackTimeRange : ParameterRange α) = false :=
      checkParameterRange_of_lt _ _ hlt
    have h2 : checkParameterRange v (mReleaseTimeRange : ParameterRange α) = false :=
      checkParameterRange_of_lt _ _ hlt
    simp [setAttackTime, setReleaseTime, h1, h2]
  · intro c v hlt
    have h1 : checkParameterRange v (mThresholdRange : ParameterRange α) = false :=
      checkParameterRange_of_lt _ _ hlt
    simp [setThreshold, h1]
  · intro c v hlt
    have h1 : checkParameterRange v (mRatioRange : ParameterRange α) = false :=
      checkParameterRange_of_lt _ _ hlt
    simp [setRatio, h1]
  · intro c v hlt
    have h1 : checkParameterRange v (mGainRange : ParameterRange α) = false :=
      checkParameterRange_of_lt _ _ hlt
    simp [setPreGain, setPostGain, h1]

theorem checkParameterRange_false_below_high_witness :
    (1 : ℚ) < 20 ∧ (1 / 2 : ℚ) < 20 ∧ checkParameterRange (1 / 2 : ℚ) (1, 20) = false :=
  ⟨by norm_num, by norm_num,
    (checkParameterRange_false_below_high (B := 2) (1 : ℚ) 20 (1 / 2) (by norm_num)
      (by norm_num)).1⟩

end Setters

section Bypass

variable {α : Type} [LinearOrderedField α] {B : Nat}

theorem getOutput_bypass (env : MathEnv α) (c : Compressor α B) (u : Upstream α)
    (h : c.mActive = false) :
    getOutput env c u = some (u.samples u.pulled, c, { u with pulled := u.pulled + 1 }) := by
  simp [getOutput, h, getInput]

theorem getOutputs_bypass (env : MathEnv α) (c : Compressor α B) (h : c.mActive = false) :
    ∀ (n : Nat) (u : Upstream α), getOutputs env n c u =
      some ((List.range n).map (fun k => u.samples (u.pulled + k)), c,
        { u with pulled := u.pulled + n }) := by
  intro n
  induction n with
  | zero => intro u; simp [getOutputs]
  | succ n ih =>
    intro u
    simp only [getOutputs, getOutput_bypass env c u h, ih]
    simp [List.range_succ_eq_map, Function.comp_def, Nat.add_assoc, Nat.add_comm 1]

/-- C4: with the activity flag false, `n` successive `getOutput()` calls return the next `n`
upstream samples in order, each call pulls the upstream exactly once, and the compressor
state (buffer, envelope state, cursor and all other members) is left unchanged. -/
theorem bypass_pass_through (env : MathEnv α) (c : Compressor α B) (u : Upstream α) (n : Nat)
    (h : c.mActive = false) :
    getOutput env c u = some (u.samples u.pulled, c, { u with pulled := u.pulled + 1 }) ∧
    getOutputs env n c u =
      some ((List.range n).map (fun k => u.samples (u.pulled + k)), c,
        { u with pulled := u.pulled + n }) :=
  ⟨getOutput_bypass env c u h, getOutputs_bypass env c h n u⟩

theorem bypass_pass_through_witness :
    getOutputs (⟨fun _ _ => 0, fun _ => 0, 44100⟩ : MathEnv ℚ) 3
        { demo with mActive := false } ⟨fun k => (k : ℚ) / 10, 5⟩ =
      some ((List.range 3).map (fun k => (((5 + k : Nat) : ℚ)) / 10),
        { demo with mActive := false }, ⟨fun k => (k : ℚ) / 10, 5 + 3⟩) :=
  (bypass_pass_through ⟨fun _ _ => 0, fun _ => 0, 44100⟩ { demo with mActive := false }
    ⟨fun k => (k : ℚ) / 10, 5⟩ 3 rfl).2

end Bypass

section Loops

variable {α : Type} [LinearOrderedField α] {B : Nat}

theorem forLoop_succ {σ : Type} (body : Fin B → σ → σ) (k : Nat) (h : k + 1 ≤ B) (s : σ) :
    forLoop B body (k + 1) h s = body ⟨k, h⟩ (forLoop B body k (Nat.le_of_succ_le h) s) :=
  rfl

/-- A component that every iteration leaves alone is left alone by the whole loop. -/
theorem forLoop_preserves {σ β : Type} (f : σ → β) (body : Fin B → σ → σ)
    (hb : ∀ i s, f (body i s) = f s) (k : Nat) (h : k ≤ B) (s : σ) :
    f (forLoop B body k h s) = f s := by
  induction k with
  | zero => rfl
  | succ k ih => rw [forLoop_succ, hb, ih]

theorem atIndex_of_lt (a : Fin B → α) (i : Nat) (h : i < B) : atIndex a i = a ⟨i, h⟩ := by
  simp [atIndex, h]

theorem getEnvelope_eq (c : Compressor α B) :
    getEnvelope c = forLoop B envelopeBody B (Nat.le_refl B) c := rfl

theorem envelopeLoop_state (c : Compressor α B) (k : Nat) (h : k ≤ B) :
    (forLoop B envelopeBody k h c).mEnvelopeSample =
        envelopeSeq c.mAttackGain c.mReleaseGain c.mEnvelopeSample (atIndex c.mBuffer) k ∧
    ∀ i : Fin B, (forLoop B envelopeBody k h c).mEnvelope i =
      if i.val < k then
        envelopeSeq c.mAttackGain c.mReleaseGain c.mEnvelopeSample (atIndex c.mBuffer) (i.val + 1)
      else c.mEnvelope i := by
  induction k with
  | zero => exact ⟨rfl, fun i => by simp [forLoop]⟩
  | succ k ih =>
    obtain ⟨ih1, ih2⟩ := ih (Nat.le_of_succ_le h)
    have hbuf : (forLoop B envelopeBody k (Nat.le_of_succ_le h) c).mBuffer = c.mBuffer :=
      forLoop_preserves (fun s : Compressor α B => s.mBuffer) envelopeBody (fun _ _ => rfl) k _ c
    have hatt : (forLoop B envelopeBody k (Nat.le_of_succ_le h) c).mAttackGain = c.mAttackGain :=
      forLoop_preserves (fun s : Compressor α B => s.mAttackGain) envelopeBody (fun _ _ => rfl) k _ c
    have hrel : (forLoop B envelopeBody k (Nat.le_of_succ_le h) c).mReleaseGain = c.mReleaseGain :=
      forLoop_preserves (fun s : Compressor α B => s.mReleaseGain) envelopeBody (fun _ _ => rfl) k _ c
    have hstep : (forLoop B envelopeBody (k + 1) h c).mEnvelopeSample =
        envelopeSeq c.mAttackGain c.mReleaseGain c.mEnvelopeSample (atIndex c.mBuffer) (k + 1) := by
      rw [forLoop_succ]
      simp only [envelopeBody, envelopeSeq, hbuf, hatt, hrel, ih1, atIndex_of_lt c.mBuffer k h,
        gt_iff_lt]
    refine ⟨hstep, fun i => ?_⟩
    by_cases hik : i.val = k
    · have hi : i = ⟨k, h⟩ := Fin.ext hik
      have hlt : i.val < k + 1 := by omega
      rw [if_pos hlt, hik, ← hstep, forLoop_succ]
      subst hi
      simp [envelopeBody]
    · have hne : i ≠ ⟨k, h⟩ := fun e => hik (by rw [e])
      have hupd : (forLoop B envelopeBody (k + 1) h c).mEnvelope i =
          (forLoop B envelopeBody k (Nat.le_of_succ_le h) c).mEnvelope i := by
        rw [forLoop_succ]
        simp [envelopeBody, Function.update_noteq hne]
      rw [hupd, ih2 i]
      by_cases hlt : i.val < k
      · rw [if_pos hlt, if_pos (by omega)]
      · rw [if_neg hlt, if_neg (by omega)]

theorem getEnvelope_mEnvelope (c : Compressor α B) (i : Fin B) :
    (getEnvelope c).mEnvelope i =
      envelopeSeq c.mAttackGain c.mReleaseGain c.mEnvelopeSample (atIndex c.mBuffer)
        (i.val + 1) := by
  rw [getEnvelope_eq, (envelopeLoop_state c B (Nat.le_refl B)).2 i, if_pos i.isLt]

theorem getEnvelope_mEnvelopeSample (c : Compressor α B) :
    (getEnvelope c).mEnvelopeSample =
      envelopeSeq c.mAttackGain c.mReleaseGain c.mEnvelopeSample (atIndex c.mBuffer) B := by
  rw [getEnvelope_eq, (envelopeLoop_state c B (Nat.le_refl B)).1]

theorem preGainLoop_eq (p : α) (c : Compressor α B) (k : Nat) (h : k ≤ B) :
    forLoop B (preGainBody p) k h c =
      { c with mBuffer := fun i => if i.val < k then c.mBuffer i * p else c.mBuffer i } := by
  induction k with
  | zero => simp [forLoop]
  | succ k ih =>
    rw [forLoop_succ, ih (Nat.le_of_succ_le h)]
    simp only [preGainBody, lt_irrefl, if_false]
    congr 1
    funext i
    by_cases hik : i.val = k
    · have hi : i = ⟨k, h⟩ := Fin.ext hik
      subst hi
      simp
    · have hne : i ≠ ⟨k, h⟩ := fun e => hik (by rw [e])
      rw [Function.update_noteq hne]
      by_cases hlt : i.val < k
      · rw [if_pos hlt, if_pos (by omega)]
      · rw [if_neg hlt, if_neg (by omega)]

theorem applyPreGain_eq (env : MathEnv α) (c : Compressor α B) :
    applyPreGain env c =
      if c.mPreGain ≠ 0 then { c with mBuffer := fun i => c.mBuffer i * dbToAmp env c.mPreGain }
      else c := by
  by_cases hp : c.mPreGain = 0
  · simp [applyPreGain, hp]
  · simp only [applyPreGain, ne_eq, hp, not_false_eq_true, if_true]
    rw [preGainLoop_eq]
    simp

theorem gainLoop_mBuffer (env : MathEnv α) (post : α) (c : Compressor α B) (k : Nat)
    (h : k ≤ B) (i : Fin B) :
    (forLoop B (gainBody env post) k h c).mBuffer i =
      if i.val < k then
        c.mBuffer i * (dbToAmp env (min 0 (c.mSlope * (c.mThreshold - c.mEnvelope i))) * post)
      else c.mBuffer i := by
  induction k with
  | zero => simp [forLoop]
  | succ k ih =>
    have ih1 := ih (Nat.le_of_succ_le h)
    have hs : (forLoop B (gainBody env post) k (Nat.le_of_succ_le h) c).mSlope = c.mSlope :=
      forLoop_preserves (fun s : Compressor α B => s.mSlope) (gainBody env post)
        (fun _ _ => rfl) k _ c
    have ht : (forLoop B (gainBody env post) k (Nat.le_of_succ_le h) c).mThreshold
        = c.mThreshold :=
      forLoop_preserves (fun s : Compressor α B => s.mThreshold) (gainBody env post)
        (fun _ _ => rfl) k _ c
    have he : (forLoop B (gainBody env post) k (Nat.le_of_succ_le h) c).mEnvelope
        = c.mEnvelope :=
      forLoop_preserves (fun s : Compressor α B => s.mEnvelope) (gainBody env post)
        (fun _ _ => rfl) k _ c
    rw [forLoop_succ]
    by_cases hik : i.val = k
    · have hi : i = ⟨k, h⟩ := Fin.ext hik
      subst hi
      have ih2 := ih1
      simp only [lt_irrefl, if_false] at ih2
      simp [gainBody, ih2, hs, ht, he]
    · have hne : i ≠ ⟨k, h⟩ := fun e => hik (by rw [e])
      simp only [gainBody, Function.update_noteq hne, ih1]
      by_cases hlt : i.val < k
      · rw [if_pos hlt, if_pos (by omega)]
      · rw [if_neg hlt, if_neg (by omega)]

/-- Any member that the loop bodies of `getEnvelope` leave alone. -/
theorem getEnvelope_preserves {β : Type} (f : Compressor α B → β)
    (hf : ∀ (s : Compressor α B) (e : α) (a : Fin B → α),
      f { s with mEnvelopeSample := e, mEnvelope := a } = f s)
    (c : Compressor α B) : f (getEnvelope c) = f c :=
  forLoop_preserves f envelopeBody (fun _ s => hf s _ _) B _ c

/-- Any member that the gain loop of `filterAudio` leaves alone. -/
theorem gainLoop_preserves {β : Type} (f : Compressor α B → β)
    (hf : ∀ (s : Compressor α B) (g : α) (b : Fin B → α),
      f { s with mGain := g, mBuffer := b } = f s)
    (env : MathEnv α) (post : α) (c : Compressor α B) :
    f (forLoop B (gainBody env post) B (Nat.le_refl B) c) = f c :=
  forLoop_preserves f (gainBody env post) (fun _ s => hf s _ _) B _ c

theorem applyPreGain_preserves {β : Type} (f : Compressor α B → β)
    (hf : ∀ (s : Compressor α B) (b : Fin B → α), f { s with mBuffer := b } = f s)
    (env : MathEnv α) (c : Compressor α B) : f (applyPreGain env c) = f c := by
  rw [applyPreGain_eq]
  split
  · exact hf c _
  · rfl

/-- The buffer after `filterAudio`, in terms of the pre-gain stage and the envelope pass. -/
theorem filterAudio_mBuffer (env : MathEnv α) (c : Compressor α B) (i : Fin B) :
    (filterAudio env c).mBuffer i =
      (applyPreGain env c).mBuffer i *
        (dbToAmp env (min 0 ((1 - 1 / c.mRatio) *
          (c.mThreshold - (getEnvelope (applyPreGain env c)).mEnvelope i))) *
          dbToAmp env c.mPostGain) := by
  have hb : (getEnvelope (applyPreGain env c)).mBuffer = (applyPreGain env c).mBuffer :=
    getEnvelope_preserves (fun s : Compressor α B => s.mBuffer) (fun _ _ _ => rfl) _
  have hr : (getEnvelope (applyPreGain env c)).mRatio = c.mRatio := by
    rw [getEnvelope_preserves (fun s : Compressor α B => s.mRatio) (fun _ _ _ => rfl)]
    exact applyPreGain_preserves (fun s : Compressor α B => s.mRatio) (fun _ _ => rfl) env c
  have ht : (getEnvelope (applyPreGain env c)).mThreshold = c.mThreshold := by
    rw [getEnvelope_preserves (fun s : Compressor α B => s.mThreshold) (fun _ _ _ => rfl)]
    exact applyPreGain_preserves (fun s : Compressor α B => s.mThreshold) (fun _ _ => rfl) env c
  simp only [filterAudio]
  rw [gainLoop_mBuffer, if_pos i.isLt]
  simp only [calculateSlope, hb, hr, ht]

/-- Members other than the two arrays, the envelope state, the slope and the gain are the
same before and after `filterAudio`. -/
theorem filterAudio_preserves {β : Type} (f : Compressor α B → β)
    (hf : ∀ (s : Compressor α B) (b a : Fin B → α) (e sl g : α),
      f { s with mBuffer := b, mEnvelope := a, mEnvelopeSample := e, mSlope := sl, mGain := g }
        = f s)
    (env : MathEnv α) (c : Compressor α B) : f (filterAudio env c) = f c := by
  simp only [filterAudio]
  rw [gainLoop_preserves f (fun s g b => by
    simpa using hf s b s.mEnvelope s.mEnvelopeSample s.mSlope g)]
  have h1 : ∀ s : Compressor α B, f (calculateSlope s) = f s := fun s => by
    simpa [calculateSlope] using hf s s.mBuffer s.mEnvelope s.mEnvelopeSample (1 - 1 / s.mRatio)
      s.mGain
  rw [h1, getEnvelope_preserves f (fun s e a => by
    simpa using hf s s.mBuffer a e s.mSlope s.mGain)]
  exact applyPreGain_preserves f (fun s b => by
    simpa using hf s b s.mEnvelope s.mEnvelopeSample s.mSlope s.mGain) env c

theorem refillLoop_eq (c : Compressor α B) (u : Upstream α) (k : Nat) (h : k ≤ B) :
    forLoop B refillBody k h (c, u) =
      ({ c with mBuffer := fun i => if i.val < k then upstreamBlock u i else c.mBuffer i },
        { u with pulled := u.pulled + k }) := by
  induction k with
  | zero => simp [forLoop]
  | succ k ih =>
    rw [forLoop_succ, ih (Nat.le_of_succ_le h)]
    simp only [refillBody, getInput, lt_irrefl, if_false, Nat.add_assoc]
    congr 2
    funext i
    by_cases hik : i.val = k
    · have hi : i = ⟨k, h⟩ := Fin.ext hik
      subst hi
      simp [upstreamBlock]
    · have hne : i ≠ ⟨k, h⟩ := fun e => hik (by rw [e])
      rw [Function.update_noteq hne]
      by_cases hlt : i.val < k
      · rw [if_pos hlt, if_pos (by omega)]
      · rw [if_neg hlt, if_neg (by omega)]

/-- A refill pulls the upstream exactly `B` times, stores the pulled samples in order, resets
the cursor and runs `filterAudio` on the new block. -/
theorem refill_eq (env : MathEnv α) (c : Compressor α B) (u : Upstream α) :
    refill env c u =
      (filterAudio env { c with mCurrentSample := 0, mBuffer := upstreamBlock u },
        { u with pulled := u.pulled + B }) := by
  simp only [refill]
  rw [refillLoop_eq]
  simp

theorem refill_mCurrentSample (env : MathEnv α) (c : Compressor α B) (u : Upstream α) :
    (refill env c u).1.mCurrentSample = 0 := by
  rw [refill_eq]
  exact filterAudio_preserves (fun s : Compressor α B => s.mCurrentSample)
    (fun _ _ _ _ _ _ => rfl) env _

theorem refill_mActive (env : MathEnv α) (c : Compressor α B) (u : Upstream α) :
    (refill env c u).1.mActive = c.mActive := by
  rw [refill_eq]
  exact filterAudio_preserves (fun s : Compressor α B => s.mActive)
    (fun _ _ _ _ _ _ => rfl) env _

theorem getOutput_refill (env : MathEnv α) (c : Compressor α B) (u : Upstream α) (hB : 0 < B)
    (hact : c.mActive = true) (hcur : c.mCurrentSample = B) :
    getOutput env c u =
      some ((refill env c u).1.mBuffer ⟨0, hB⟩,
        { (refill env c u).1 with mCurrentSample := 1 }, (refill env c u).2) := by
  have h0 := refill_mCurrentSample env c u
  simp only [getOutput, hact, hcur, Bool.not_true, if_true]
  simp [h0, hB]

theorem getOutput_buffered (env : MathEnv α) (c : Compressor α B) (u : Upstream α)
    (hact : c.mActive = true) (hcur : c.mCurrentSample < B) :
    getOutput env c u =
      some (c.mBuffer ⟨c.mCurrentSample, hcur⟩,
        { c with mCurrentSample := c.mCurrentSample + 1 }, u) := by
  have hne : c.mCurrentSample ≠ B := Nat.ne_of_lt hcur
  simp [getOutput, hact, hne, hcur]

theorem getOutput_buffered_at (env : MathEnv α) (c : Compressor α B) (u : Upstream α) (j : Nat)
    (hact : c.mActive = true) (hj : j < B) :
    getOutput env { c with mCurrentSample := j } u =
      some (c.mBuffer ⟨j, hj⟩, { c with mCurrentSample := j + 1 }, u) :=
  getOutput_buffered env { c with mCurrentSample := j } u hact hj

theorem getOutputs_succ_last (env : MathEnv α) :
    ∀ (n : Nat) (c : Compressor α B) (u : Upstream α),
      getOutputs env (n + 1) c u =
        match getOutputs env n c u with
        | none => none
        | some (xs, c1, u1) =>
          match getOutput env c1 u1 with
          | none => none
          | some (x, c2, u2) => some (xs ++ [x], c2, u2) := by
  intro n
  induction n with
  | zero =>
    intro c u
    simp only [getOutputs]
    cases getOutput env c u <;> simp
  | succ n ih =>
    intro c u
    rw [getOutputs]
    cases h1 : getOutput env c u with
    | none => simp [getOutputs, h1]
    | some r =>
      obtain ⟨x, c1, u1⟩ := r
      simp only []
      rw [ih c1 u1]
      conv_rhs => rw [getOutputs]
      simp only [h1]
      cases h2 : getOutputs env n c1 u1 with
      | none => simp
      | some r2 =>
        obtain ⟨xs, c2, u2⟩ := r2
        simp only []
        cases h3 : getOutput env c2 u2 with
        | none => simp
        | some r3 => simp

end Loops

section Blocks

variable {α : Type} [LinearOrderedField α] {B : Nat}

theorem succ_div_mod_of_lt (n B : Nat) (h : n % B + 1 < B) :
    (n + 1) / B = n / B ∧ (n + 1) % B = n % B + 1 := by
  have hB : 0 < B := by omega
  have hn : n + 1 = B * (n / B) + (n % B + 1) := by
    have := Nat.div_add_mod n B
    omega
  constructor
  · rw [hn, Nat.mul_add_div hB, Nat.div_eq_of_lt h, Nat.add_zero]
  · rw [hn, Nat.mul_add_mod, Nat.mod_eq_of_lt h]

theorem succ_div_mod_of_eq (n B : Nat) (h : n % B + 1 = B) :
    (n + 1) / B = n / B + 1 ∧ (n + 1) % B = 0 := by
  have hB : 0 < B := by omega
  have hn : n + 1 = B * (n / B + 1) := by
    have := Nat.div_add_mod n B
    rw [Nat.mul_add, Nat.mul_one]
    omega
  constructor
  · rw [hn, Nat.mul_div_cancel_left _ hB]
  · rw [hn, Nat.mul_mod_right]

theorem ceil_div_of_mod_eq_zero (n B : Nat) (hB : 0 < B) (h : n % B = 0) :
    (n + B - 1) / B = n / B := by
  have hn : n + B - 1 = B * (n / B) + (B - 1) := by
    have := Nat.div_add_mod n B
    omega
  rw [hn, Nat.mul_add_div hB, Nat.div_eq_of_lt (show B - 1 < B by omega), Nat.add_zero]

theorem ceil_div_of_mod_ne_zero (n B : Nat) (hB : 0 < B) (h : n % B ≠ 0) :
    (n + B - 1) / B = n / B + 1 := by
  have hlt : n % B < B := Nat.mod_lt n hB
  have hn : n + B - 1 = B * (n / B + 1) + (n % B - 1) := by
    have := Nat.div_add_mod n B
    rw [Nat.mul_add, Nat.mul_one]
    omega
  rw [hn, Nat.mul_add_div hB, Nat.div_eq_of_lt (show n % B - 1 < B by omega), Nat.add_zero]

theorem afterBlocks_facts (env : MathEnv α) (c : Compressor α B) (u : Upstream α)
    (hact : c.mActive = true) (hcur : c.mCurrentSample = B) (m : Nat) :
    (afterBlocks env m (c, u)).1.mActive = true ∧
    (afterBlocks env m (c, u)).1.mCurrentSample = B ∧
    (afterBlocks env m (c, u)).2 = { u with pulled := u.pulled + m * B } := by
  induction m with
  | zero => exact ⟨hact, hcur, by simp [afterBlocks]⟩
  | succ m ih =>
    obtain ⟨h1, _, h3⟩ := ih
    refine ⟨?_, rfl, ?_⟩
    · simp only [afterBlocks]
      rw [refill_mActive, h1]
    · simp only [afterBlocks]
      rw [refill_eq, h3]
      simp [Nat.add_mul, Nat.add_assoc]

theorem stateAfter_succ_eq (env : MathEnv α) (c : Compressor α B) (u : Upstream α) (hB : 0 < B)
    (n : Nat) :
    stateAfter env c u (n + 1) =
      ({ (refill env (afterBlocks env (n / B) (c, u)).1
          (afterBlocks env (n / B) (c, u)).2).1 with mCurrentSample := n % B + 1 },
        (refill env (afterBlocks env (n / B) (c, u)).1 (afterBlocks env (n / B) (c, u)).2).2) := by
  have hlt : n % B < B := Nat.mod_lt n hB
  by_cases h1 : n % B + 1 = B
  · obtain ⟨hd, hm⟩ := succ_div_mod_of_eq n B h1
    unfold stateAfter
    rw [if_pos hm, hd]
    show ({ (refill env (afterBlocks env (n / B) (c, u)).1
          (afterBlocks env (n / B) (c, u)).2).1 with mCurrentSample := B }, _) = _
    rw [h1]
  · obtain ⟨hd, hm⟩ := succ_div_mod_of_lt n B (by omega)
    unfold stateAfter
    rw [if_neg (by omega), hd, hm]

theorem stateAfter_step (env : MathEnv α) (c : Compressor α B) (u : Upstream α) (hB : 0 < B)
    (hact : c.mActive = true) (hcur : c.mCurrentSample = B) (n : Nat) :
    getOutput env (stateAfter env c u n).1 (stateAfter env c u n).2 =
      some (atIndex (refill env (afterBlocks env (n / B) (c, u)).1
          (afterBlocks env (n / B) (c, u)).2).1.mBuffer (n % B),
        (stateAfter env c u (n + 1)).1, (stateAfter env c u (n + 1)).2) := by
  obtain ⟨ha, hc, _⟩ := afterBlocks_facts env c u hact hcur (n / B)
  have hlt : n % B < B := Nat.mod_lt n hB
  rw [stateAfter_succ_eq env c u hB n]
  by_cases h0 : n % B = 0
  · have hs : stateAfter env c u n = afterBlocks env (n / B) (c, u) := by
      unfold stateAfter
      rw [if_pos h0]
    rw [hs, getOutput_refill env _ _ hB ha hc, h0, atIndex_of_lt _ 0 hB]
  · have hs : stateAfter env c u n =
        ({ (refill env (afterBlocks env (n / B) (c, u)).1
            (afterBlocks env (n / B) (c, u)).2).1 with mCurrentSample := n % B },
          (refill env (afterBlocks env (n / B) (c, u)).1
            (afterBlocks env (n / B) (c, u)).2).2) := by
      unfold stateAfter
      rw [if_neg h0]
    have ha2 : (refill env (afterBlocks env (n / B) (c, u)).1
        (afterBlocks env (n / B) (c, u)).2).1.mActive = true := by
      rw [refill_mActive, ha]
    rw [hs, atIndex_of_lt _ _ hlt]
    exact getOutput_buffered_at env _ _ (n % B) ha2 hlt

theorem getOutputs_eq_stateAfter (env : MathEnv α) (c : Compressor α B) (u : Upstream α)
    (hB : 0 < B) (hact : c.mActive = true) (hcur : c.mCurrentSample = B) (n : Nat) :
    getOutputs env n c u =
      some ((List.range n).map (fun k =>
          atIndex (refill env (afterBlocks env (k / B) (c, u)).1
            (afterBlocks env (k / B) (c, u)).2).1.mBuffer (k % B)),
        (stateAfter env c u n).1, (stateAfter env c u n).2) := by
  induction n with
  | zero => simp [getOutputs, stateAfter, afterBlocks]
  | succ n ih =>
    rw [getOutputs_succ_last, ih]
    simp only []
    rw [stateAfter_step env c u hB hact hcur n]
    simp [List.range_succ]

/-- C5: from an active compressor whose cursor equals the block size `B`, `N` calls of
`getOutput()` all return; the `(k+1)`-th returned value is entry `k % B` of the block that
`filterAudio` produced from the `B` upstream samples pulled in pass number `k / B`; the call
after `N` calls performs a refill-and-filter pass exactly when `N` is a multiple of `B` (so
passes happen on pulls 1, B+1, 2B+1, ...); after `N` calls the upstream has been pulled
`ceil(N/B) * B` times; and every pass pulls the upstream `B` times and resets the cursor. -/
theorem block_refill_boundary (env : MathEnv α) (c : Compressor α B) (u : Upstream α) (N : Nat)
    (hB : 0 < B) (hact : c.mActive = true) (hcur : c.mCurrentSample = B) :
    (∃ cN uN,
      getOutputs env N c u =
        some ((List.range N).map (fun k =>
          atIndex (filterAudio env
            { (afterBlocks env (k / B) (c, u)).1 with
              mCurrentSample := 0
              mBuffer := fun i => u.samples (u.pulled + k / B * B + i.val) }).mBuffer (k % B)),
          cN, uN) ∧
      ((cN.mActive = true ∧ cN.mCurrentSample = B) ↔ N % B = 0) ∧
      (N % B ≠ 0 → cN.mCurrentSample = N % B) ∧
      uN = { u with pulled := u.pulled + (N + B - 1) / B * B }) ∧
    (∀ (c1 : Compressor α B) (u1 : Upstream α),
      refill env c1 u1 =
        (filterAudio env { c1 with mCurrentSample := 0, mBuffer := upstreamBlock u1 },
          { u1 with pulled := u1.pulled + B }) ∧
      (refill env c1 u1).1.mCurrentSample = 0) := by
  refine ⟨⟨(stateAfter env c u N).1, (stateAfter env c u N).2, ?_, ?_, ?_, ?_⟩,
    fun c1 u1 => ⟨refill_eq env c1 u1, refill_mCurrentSample env c1 u1⟩⟩
  · rw [getOutputs_eq_stateAfter env c u hB hact hcur N]
    congr 2
    apply List.map_congr_left
    intro k _
    rw [refill_eq, (afterBlocks_facts env c u hact hcur (k / B)).2.2]
    rfl
  · obtain ⟨ha, hc, _⟩ := afterBlocks_facts env c u hact hcur (N / B)
    have hlt : N % B < B := Nat.mod_lt N hB
    by_cases h0 : N % B = 0
    · unfold stateAfter
      rw [if_pos h0]
      exact ⟨fun _ => h0, fun _ => ⟨ha, hc⟩⟩
    · unfold stateAfter
      rw [if_neg h0]
      refine ⟨fun h => ?_, fun h => absurd h h0⟩
      have h2 : N % B = B := h.2
      omega
  · intro h0
    unfold stateAfter
    rw [if_neg h0]
  · obtain ⟨_, _, hu⟩ := afterBlocks_facts env c u hact hcur (N / B)
    by_cases h0 : N % B = 0
    · unfold stateAfter
      rw [if_pos h0, hu, ceil_div_of_mod_eq_zero N B hB h0]
    · unfold stateAfter
      rw [if_neg h0, ceil_div_of_mod_ne_zero N B hB h0]
      show (refill env _ _).2 = _
      rw [refill_eq, hu]
      simp [Nat.add_mul, Nat.add_assoc]

/-- Three calls on the two-sample compressor `demo` with unit gains: two refills (four upstream
pulls), the outputs are the first three upstream samples, and the cursor ends at 1. -/
theorem getOutputs_demo :
    (getOutputs demoEnv 3 demo demoUpstream).map
        (fun r => (r.1, r.2.1.mCurrentSample, r.2.2.pulled)) =
      some ([0, 1 / 10, 1 / 5], 1, 4) := by
  simp [getOutputs, getOutput, refill, forLoop, refillBody, getInput, filterAudio, applyPreGain,
    getEnvelope, envelopeBody, calculateSlope, gainBody, dbToAmp, demo, demoOver, demoEnv,
    demoUpstream, Function.update]
  norm_num

theorem block_refill_boundary_witness :
    (getOutputs demoEnv 3 demo demoUpstream).isSome = true ∧
    (refill demoEnv demo demoUpstream).1.mCurrentSample = 0 := by
  obtain ⟨⟨cN, uN, h1, _⟩, h2⟩ :=
    block_refill_boundary demoEnv demo demoUpstream 3 (by decide) rfl rfl
  exact ⟨by rw [h1]; rfl, (h2 demo demoUpstream).2⟩

end Blocks

section Envelope

variable {α : Type} [LinearOrderedField α] {B : Nat}

/-- C7: `getEnvelope()` stores in `envelope[i]` the value `e_i` of the one-pole follower
`e_i = peak_i + c_i * (e_{i-1} - peak_i)` with `peak_i = |buffer[i]|`, `e_{-1}` the prior
envelope state and `c_i` the attack coefficient when `peak_i > e_{i-1}` and the release
coefficient otherwise; the envelope state it leaves is `e_{B-1}`. The state is carried, never
reset: `filterAudio` leaves the follower's final value run from the incoming state, a
`getOutput()` call changes the state only through the refill pass, and no setter changes it. -/
theorem getEnvelope_follower (env : MathEnv α) (c : Compressor α B) (u : Upstream α) (v : α) :
    (∀ i : Fin B, (getEnvelope c).mEnvelope i =
      envelopeSeq c.mAttackGain c.mReleaseGain c.mEnvelopeSample (atIndex c.mBuffer)
        (i.val + 1)) ∧
    (getEnvelope c).mEnvelopeSample =
      envelopeSeq c.mAttackGain c.mReleaseGain c.mEnvelopeSample (atIndex c.mBuffer) B ∧
    (filterAudio env c).mEnvelopeSample =
      envelopeSeq c.mAttackGain c.mReleaseGain c.mEnvelopeSample
        (atIndex (applyPreGain env c).mBuffer) B ∧
    (∀ x c1 u1, getOutput env c u = some (x, c1, u1) →
      c1.mEnvelopeSample =
        if c.mActive = true ∧ c.mCurrentSample = B then
          (filterAudio env
            { c with mCurrentSample := 0, mBuffer := upstreamBlock u }).mEnvelopeSample
        else c.mEnvelopeSample) ∧
    (setAttackTime env v c).mEnvelopeSample = c.mEnvelopeSample ∧
    (setReleaseTime env v c).mEnvelopeSample = c.mEnvelopeSample ∧
    (setThreshold v c).mEnvelopeSample = c.mEnvelopeSample ∧
    (setRatio v c).mEnvelopeSample = c.mEnvelopeSample ∧
    (setPreGain v c).mEnvelopeSample = c.mEnvelopeSample ∧
    (setPostGain v c).mEnvelopeSample = c.mEnvelopeSample := by
  refine ⟨getEnvelope_mEnvelope c, getEnvelope_mEnvelopeSample c, ?_, ?_, ?_, ?_, ?_, ?_, ?_, ?_⟩
  · simp only [filterAudio]
    rw [gainLoop_preserves (fun s : Compressor α B => s.mEnvelopeSample) (fun _ _ _ => rfl)]
    show (getEnvelope (applyPreGain env c)).mEnvelopeSample = _
    rw [getEnvelope_mEnvelopeSample,
      applyPreGain_preserves (fun s : Compressor α B => s.mAttackGain) (fun _ _ => rfl),
      applyPreGain_preserves (fun s : Compressor α B => s.mReleaseGain) (fun _ _ => rfl),
      applyPreGain_preserves (fun s : Compressor α B => s.mEnvelopeSample) (fun _ _ => rfl)]
  · intro x c1 u1 h
    by_cases hact : c.mActive = true
    · by_cases hcur : c.mCurrentSample = B
      · rw [if_pos ⟨hact, hcur⟩]
        simp only [getOutput, hact, hcur, Bool.not_true, if_true, Bool.false_eq_true,
          if_false] at h
        split at h
        · simp only [Option.some.injEq, Prod.mk.injEq] at h
          rw [← h.2.1, refill_eq]
        · exact absurd h (by simp)
      · rw [if_neg (fun hh => hcur hh.2)]
        simp only [getOutput, hact, hcur, Bool.not_true, if_false, Bool.false_eq_true] at h
        split at h
        · simp only [Option.some.injEq, Prod.mk.injEq] at h
          rw [← h.2.1]
        · exact absurd h (by simp)
    · have hf : c.mActive = false := by simpa using hact
      rw [if_neg (fun hh => hact hh.1)]
      rw [getOutput_bypass env c u hf] at h
      simp only [Option.some.injEq, Prod.mk.injEq] at h
      rw [← h.2.1]
  all_goals
    first
    | (unfold setAttackTime; split <;> rfl)
    | (unfold setReleaseTime; split <;> rfl)
    | (unfold setThreshold; split <;> rfl)
    | (unfold setRatio; split <;> rfl)
    | (unfold setPreGain; split <;> rfl)
    | (unfold setPostGain; split <;> rfl)

end Envelope

section RealGain

variable {B : Nat}

theorem dbToAmp_real (env : MathEnv ℝ) (hpow : ∀ a b : ℝ, env.pow a b = a ^ b) (db : ℝ) :
    dbToAmp env db = (10 : ℝ) ^ (db / 20) := by
  simp [dbToAmp, hpow]

theorem dbToAmp_real_pos (db : ℝ) : 0 < (10 : ℝ) ^ (db / 20) :=
  Real.rpow_pos_of_pos (by norm_num) _

/-- Over the reals the skipped pre-gain loop is the same as multiplying by `10^(0/20) = 1`. -/
theorem applyPreGain_real (env : MathEnv ℝ) (hpow : ∀ a b : ℝ, env.pow a b = a ^ b)
    (c : Compressor ℝ B) :
    applyPreGain env c =
      { c with mBuffer := fun j => c.mBuffer j * (10 : ℝ) ^ (c.mPreGain / 20) } := by
  rw [applyPreGain_eq]
  by_cases hp : c.mPreGain = 0
  · have h1 : (10 : ℝ) ^ (c.mPreGain / 20) = 1 := by rw [hp]; simp
    rw [if_neg (not_not.mpr hp), h1]
    simp only [mul_one]
  · rw [if_pos hp, dbToAmp_real env hpow]

theorem filterAudio_mSlope {α : Type} [LinearOrderedField α] (env : MathEnv α)
    (c : Compressor α B) : (filterAudio env c).mSlope = 1 - 1 / c.mRatio := by
  simp only [filterAudio]
  rw [gainLoop_preserves (fun s : Compressor α B => s.mSlope) (fun _ _ _ => rfl)]
  simp only [calculateSlope]
  rw [getEnvelope_preserves (fun s : Compressor α B => s.mRatio) (fun _ _ _ => rfl),
    applyPreGain_preserves (fun s : Compressor α B => s.mRatio) (fun _ _ => rfl)]

theorem filterAudio_mEnvelope {α : Type} [LinearOrderedField α] (env : MathEnv α)
    (c : Compressor α B) :
    (filterAudio env c).mEnvelope = (getEnvelope (applyPreGain env c)).mEnvelope := by
  simp only [filterAudio]
  rw [gainLoop_preserves (fun s : Compressor α B => s.mEnvelope) (fun _ _ _ => rfl)]
  rfl

theorem filterAudio_mThreshold {α : Type} [LinearOrderedField α] (env : MathEnv α)
    (c : Compressor α B) : (filterAudio env c).mThreshold = c.mThreshold :=
  filterAudio_preserves (fun s : Compressor α B => s.mThreshold) (fun _ _ _ _ _ _ => rfl) env c

/-- The filtered sample over the reals, in terms of the slope, threshold and envelope that
`filterAudio` leaves in the state. -/
theorem filterAudio_real (env : MathEnv ℝ) (hpow : ∀ a b : ℝ, env.pow a b = a ^ b)
    (c : Compressor ℝ B) (i : Fin B) :
    (filterAudio env c).mBuffer i =
      c.mBuffer i * (10 : ℝ) ^ (c.mPreGain / 20) *
        (10 : ℝ) ^ (min 0 ((filterAudio env c).mSlope *
          ((filterAudio env c).mThreshold - (filterAudio env c).mEnvelope i)) / 20) *
        (10 : ℝ) ^ (c.mPostGain / 20) := by
  rw [filterAudio_mBuffer, filterAudio_mSlope, filterAudio_mThreshold, filterAudio_mEnvelope,
    dbToAmp_real env hpow, dbToAmp_real env hpow, applyPreGain_real env hpow]
  ring

/-- The envelope pass reads neither the ratio nor the slope. -/
theorem getEnvelope_mEnvelope_congr {α : Type} [LinearOrderedField α] (c d : Compressor α B)
    (hb : c.mBuffer = d.mBuffer) (ha : c.mAttackGain = d.mAttackGain)
    (hr : c.mReleaseGain = d.mReleaseGain) (he : c.mEnvelopeSample = d.mEnvelopeSample) :
    (getEnvelope c).mEnvelope = (getEnvelope d).mEnvelope := by
  funext i
  rw [getEnvelope_mEnvelope, getEnvelope_mEnvelope, hb, ha, hr, he]

/-- The filtered sample over the reals, in terms of the members before the pass. -/
theorem filterAudio_real_explicit (env : MathEnv ℝ) (hpow : ∀ a b : ℝ, env.pow a b = a ^ b)
    (c : Compressor ℝ B) (i : Fin B) :
    (filterAudio env c).mBuffer i =
      c.mBuffer i * (10 : ℝ) ^ (c.mPreGain / 20) *
        (10 : ℝ) ^ (min 0 ((1 - 1 / c.mRatio) * (c.mThreshold -
          (getEnvelope { c with mBuffer := fun j => c.mBuffer j * (10 : ℝ) ^ (c.mPreGain / 20) }
            ).mEnvelope i)) / 20) *
        (10 : ℝ) ^ (c.mPostGain / 20) := by
  rw [filterAudio_real env hpow, filterAudio_mSlope, filterAudio_mThreshold,
    filterAudio_mEnvelope, applyPreGain_real env hpow]

/-- C6: over real arithmetic, after `filterAudio()` every buffer entry equals
`x[i] * pre * 10^(min(0, slope * (threshold - envelope[i])) / 20) * 10^(postGain/20)` with
`pre = 10^(preGain/20)` (also when `preGain = 0` and the multiplication is skipped),
`slope = 1 - 1/ratio`, and `envelope[i]` the output of `getEnvelope()` on the pre-gained
samples; these are the slope and envelope the pass leaves in the state. The ratio is taken
non-zero: at ratio 0 the expression `1/ratio` has no real value and the source computes an
infinite slope. -/
theorem filterAudio_result (env : MathEnv ℝ) (c : Compressor ℝ B) (i : Fin B)
    (hpow : ∀ a b : ℝ, env.pow a b = a ^ b) (hratio : c.mRatio ≠ 0) :
    (filterAudio env c).mBuffer i =
      c.mBuffer i * (10 : ℝ) ^ (c.mPreGain / 20) *
        (10 : ℝ) ^ (min 0 ((1 - 1 / c.mRatio) * (c.mThreshold -
          (getEnvelope { c with mBuffer := fun j => c.mBuffer j * (10 : ℝ) ^ (c.mPreGain / 20) }
            ).mEnvelope i)) / 20) *
        (10 : ℝ) ^ (c.mPostGain / 20) ∧
    (filterAudio env c).mSlope = 1 - 1 / c.mRatio ∧
    (filterAudio env c).mEnvelope =
      (getEnvelope { c with mBuffer := fun j => c.mBuffer j * (10 : ℝ) ^ (c.mPreGain / 20) }
        ).mEnvelope := by
  have _ := hratio
  refine ⟨filterAudio_real_explicit env hpow c i, filterAudio_mSlope env c, ?_⟩
  rw [filterAudio_mEnvelope, applyPreGain_real env hpow]

theorem filterAudio_result_witness :
    (demoOver ℝ).mRatio ≠ 0 ∧
    (filterAudio (⟨fun a b => a ^ b, Real.exp, 44100⟩ : MathEnv ℝ) (demoOver ℝ)).mSlope =
      1 - 1 / (demoOver ℝ).mRatio :=
  ⟨by simp [demoOver],
    (filterAudio_result ⟨fun a b => a ^ b, Real.exp, 44100⟩ (demoOver ℝ) 0 (fun _ _ => rfl)
      (by simp [demoOver])).2.1⟩

/-- C8: with everything but the ratio fixed (block, threshold, gains, coefficients, envelope
state), for ratios `1 ≤ r1 ≤ r2` the magnitude of every filtered sample under `r2` is at most
the magnitude of the same sample under `r1`. It holds for every block, constant ones
included, and the upper bound 20 on the ratios is not needed. -/
theorem ratio_monotone (env : MathEnv ℝ) (c : Compressor ℝ B) (r1 r2 : ℝ) (i : Fin B)
    (hpow : ∀ a b : ℝ, env.pow a b = a ^ b) (h1 : 1 ≤ r1) (h12 : r1 ≤ r2) :
    |(filterAudio env { c with mRatio := r2 }).mBuffer i| ≤
      |(filterAudio env { c with mRatio := r1 }).mBuffer i| := by
  have hr1 : (0 : ℝ) < r1 := by linarith
  have hr2 : (0 : ℝ) < r2 := by linarith
  have hs1 : (0 : ℝ) ≤ 1 - 1 / r1 := by
    rw [sub_nonneg, div_le_iff₀ hr1]; linarith
  have hs12 : 1 - 1 / r1 ≤ 1 - 1 / r2 := by
    have := one_div_le_one_div_of_le hr1 h12
    linarith
  have henv : (getEnvelope
        { ({ c with mRatio := r2 } : Compressor ℝ B) with
          mBuffer := fun j => c.mBuffer j * (10 : ℝ) ^ (c.mPreGain / 20) }).mEnvelope =
      (getEnvelope
        { ({ c with mRatio := r1 } : Compressor ℝ B) with
          mBuffer := fun j => c.mBuffer j * (10 : ℝ) ^ (c.mPreGain / 20) }).mEnvelope :=
    getEnvelope_mEnvelope_congr _ _ rfl rfl rfl rfl
  rw [filterAudio_real_explicit env hpow { c with mRatio := r2 } i,
    filterAudio_real_explicit env hpow { c with mRatio := r1 } i]
  simp only []
  rw [henv]
  generalize (getEnvelope
        { ({ c with mRatio := r1 } : Compressor ℝ B) with
          mBuffer := fun j => c.mBuffer j * (10 : ℝ) ^ (c.mPreGain / 20) }).mEnvelope i = e
  have hg : min 0 ((1 - 1 / r2) * (c.mThreshold - e)) ≤
      min 0 ((1 - 1 / r1) * (c.mThreshold - e)) := by
    by_cases hd : 0 ≤ c.mThreshold - e
    · rw [min_eq_left (mul_nonneg (le_trans hs1 hs12) hd), min_eq_left (mul_nonneg hs1 hd)]
    · exact min_le_min le_rfl (mul_le_mul_of_nonpos_right hs12 (le_of_lt (not_le.mp hd)))
  have hpw : (10 : ℝ) ^ (min 0 ((1 - 1 / r2) * (c.mThreshold - e)) / 20) ≤
      (10 : ℝ) ^ (min 0 ((1 - 1 / r1) * (c.mThreshold - e)) / 20) :=
    Real.rpow_le_rpow_of_exponent_le (by norm_num) (by linarith)
  have hpre := dbToAmp_real_pos c.mPreGain
  have hpost := dbToAmp_real_pos c.mPostGain
  have hg1 := dbToAmp_real_pos (min 0 ((1 - 1 / r1) * (c.mThreshold - e)))
  have hg2 := dbToAmp_real_pos (min 0 ((1 - 1 / r2) * (c.mThreshold - e)))
  rw [abs_mul, abs_mul, abs_mul, abs_mul, abs_mul, abs_mul, abs_of_pos hpre, abs_of_pos hpost,
    abs_of_pos hg1, abs_of_pos hg2]
  exact mul_le_mul_of_nonneg_right
    (mul_le_mul_of_nonneg_left hpw (mul_nonneg (abs_nonneg _) hpre.le)) hpost.le

theorem ratio_monotone_witness :
    |(filterAudio (⟨fun a b => a ^ b, Real.exp, 44100⟩ : MathEnv ℝ)
        { demoOver ℝ with mRatio := 4 }).mBuffer 0| ≤
      |(filterAudio (⟨fun a b => a ^ b, Real.exp, 44100⟩ : MathEnv ℝ)
        { demoOver ℝ with mRatio := 2 }).mBuffer 0| :=
  ratio_monotone ⟨fun a b => a ^ b, Real.exp, 44100⟩ (demoOver ℝ) 2 4 0 (fun _ _ => rfl)
    (by norm_num) (by norm_num)

/-- C9: with ratio 1 the slope is 0, the gain reduction is 0 dB for every threshold and
envelope, and over real arithmetic every filtered sample is exactly
`input * 10^(preGain/20) * 10^(postGain/20)`. -/
theorem ratio_one_transparent (env : MathEnv ℝ) (c : Compressor ℝ B) (i : Fin B)
    (hpow : ∀ a b : ℝ, env.pow a b = a ^ b) (hr : c.mRatio = 1) :
    (filterAudio env c).mSlope = 0 ∧
    min 0 ((filterAudio env c).mSlope *
      ((filterAudio env c).mThreshold - (filterAudio env c).mEnvelope i)) = 0 ∧
    (filterAudio env c).mBuffer i =
      c.mBuffer i * (10 : ℝ) ^ (c.mPreGain / 20) * (10 : ℝ) ^ (c.mPostGain / 20) := by
  have hs : (filterAudio env c).mSlope = 0 := by
    rw [filterAudio_mSlope, hr]; norm_num
  refine ⟨hs, by rw [hs]; simp, ?_⟩
  rw [filterAudio_real env hpow, hs]
  simp

theorem ratio_one_transparent_witness :
    (filterAudio (⟨fun a b => a ^ b, Real.exp, 44100⟩ : MathEnv ℝ)
        { demoOver ℝ with mRatio := 1, mPreGain := 6 }).mBuffer 1 =
      ({ demoOver ℝ with mRatio := 1, mPreGain := 6 } : Compressor ℝ 2).mBuffer 1 *
        (10 : ℝ) ^ ((6 : ℝ) / 20) * (10 : ℝ) ^ ((0 : ℝ) / 20) :=
  (ratio_one_transparent ⟨fun a b => a ^ b, Real.exp, 44100⟩
    { demoOver ℝ with mRatio := 1, mPreGain := 6 } 1 (fun _ _ => rfl) rfl).2.2

/-- The linear gain factor left in `mGain` by iteration `k` of the gain loop. -/
theorem gainLoop_mGain {α : Type} [LinearOrderedField α] (env : MathEnv α) (post : α)
    (c : Compressor α B) (k : Nat) (h : k + 1 ≤ B) :
    (forLoop B (gainBody env post) (k + 1) h c).mGain =
      dbToAmp env (min 0 (c.mSlope * (c.mThreshold - c.mEnvelope ⟨k, h⟩))) := by
  have hs : (forLoop B (gainBody env post) k (Nat.le_of_succ_le h) c).mSlope = c.mSlope :=
    forLoop_preserves (fun s : Compressor α B => s.mSlope) (gainBody env post)
      (fun _ _ => rfl) k _ c
  have ht : (forLoop B (gainBody env post) k (Nat.le_of_succ_le h) c).mThreshold
      = c.mThreshold :=
    forLoop_preserves (fun s : Compressor α B => s.mThreshold) (gainBody env post)
      (fun _ _ => rfl) k _ c
  have he : (forLoop B (gainBody env post) k (Nat.le_of_succ_le h) c).mEnvelope
      = c.mEnvelope :=
    forLoop_preserves (fun s : Compressor α B => s.mEnvelope) (gainBody env post)
      (fun _ _ => rfl) k _ c
  rw [forLoop_succ]
  simp only [gainBody, hs, ht, he]

/-- The gain factor that `filterAudio` computes for sample `i`, in terms of the slope,
threshold and envelope the pass leaves in the state. -/
theorem filterAudioUpTo_mGain {α : Type} [LinearOrderedField α] (env : MathEnv α)
    (c : Compressor α B) (i : Fin B) :
    (filterAudioUpTo env c (i.val + 1) i.isLt).mGain =
      dbToAmp env (min 0 ((filterAudio env c).mSlope *
        ((filterAudio env c).mThreshold - (filterAudio env c).mEnvelope i))) := by
  rw [filterAudio_mSlope, filterAudio_mThreshold, filterAudio_mEnvelope]
  simp only [filterAudioUpTo]
  rw [gainLoop_mGain]
  simp only [calculateSlope]
  rw [getEnvelope_preserves (fun s : Compressor α B => s.mRatio) (fun _ _ _ => rfl),
    applyPreGain_preserves (fun s : Compressor α B => s.mRatio) (fun _ _ => rfl),
    getEnvelope_preserves (fun s : Compressor α B => s.mThreshold) (fun _ _ _ => rfl),
    applyPreGain_preserves (fun s : Compressor α B => s.mThreshold) (fun _ _ => rfl)]

/-- C10: with ratio at least 1 the slope is non-negative; for every sample `i` the value the
gain loop of `filterAudio` leaves in `mGain` at iteration `i` is `dbToAmp` of the clamped
gain reduction `min(0, slope * (threshold - envelope[i]))`, which is at most 0 dB, so this
linear factor equals `10^(dB/20)` and lies in `(0, 1]`; the filtered sample is the input
times the pre-gain factor, this factor and the post-gain factor, hence
`|out[i]| ≤ |x[i]| * 10^(preGain/20) * 10^(postGain/20)`. -/
theorem never_boosts (env : MathEnv ℝ) (c : Compressor ℝ B) (i : Fin B)
    (hpow : ∀ a b : ℝ, env.pow a b = a ^ b) (hr : 1 ≤ c.mRatio) :
    filterAudioUpTo env c B (Nat.le_refl B) = filterAudio env c ∧
    0 ≤ (filterAudio env c).mSlope ∧
    (filterAudioUpTo env c (i.val + 1) i.isLt).mGain =
      dbToAmp env (min 0 ((filterAudio env c).mSlope *
        ((filterAudio env c).mThreshold - (filterAudio env c).mEnvelope i))) ∧
    min 0 ((filterAudio env c).mSlope *
      ((filterAudio env c).mThreshold - (filterAudio env c).mEnvelope i)) ≤ 0 ∧
    (filterAudioUpTo env c (i.val + 1) i.isLt).mGain =
      (10 : ℝ) ^ (min 0 ((filterAudio env c).mSlope *
        ((filterAudio env c).mThreshold - (filterAudio env c).mEnvelope i)) / 20) ∧
    0 < (filterAudioUpTo env c (i.val + 1) i.isLt).mGain ∧
    (filterAudioUpTo env c (i.val + 1) i.isLt).mGain ≤ 1 ∧
    (filterAudio env c).mBuffer i =
      c.mBuffer i * (10 : ℝ) ^ (c.mPreGain / 20) *
        (filterAudioUpTo env c (i.val + 1) i.isLt).mGain * (10 : ℝ) ^ (c.mPostGain / 20) ∧
    |(filterAudio env c).mBuffer i| ≤
      |c.mBuffer i| * (10 : ℝ) ^ (c.mPreGain / 20) * (10 : ℝ) ^ (c.mPostGain / 20) := by
  have hpos : (0 : ℝ) < c.mRatio := by linarith
  have hs : 0 ≤ (filterAudio env c).mSlope := by
    rw [filterAudio_mSlope, sub_nonneg, div_le_iff₀ hpos]; linarith
  have hle : min 0 ((filterAudio env c).mSlope *
      ((filterAudio env c).mThreshold - (filterAudio env c).mEnvelope i)) ≤ 0 := min_le_left _ _
  have hg1 : (10 : ℝ) ^ (min 0 ((filterAudio env c).mSlope *
      ((filterAudio env c).mThreshold - (filterAudio env c).mEnvelope i)) / 20) ≤ 1 :=
    Real.rpow_le_one_of_one_le_of_nonpos (by norm_num) (by linarith)
  have hG := filterAudioUpTo_mGain env c i
  have hGr : (filterAudioUpTo env c (i.val + 1) i.isLt).mGain =
      (10 : ℝ) ^ (min 0 ((filterAudio env c).mSlope *
        ((filterAudio env c).mThreshold - (filterAudio env c).mEnvelope i)) / 20) := by
    rw [hG, dbToAmp_real env hpow]
  have hpre := dbToAmp_real_pos c.mPreGain
  have hpost := dbToAmp_real_pos c.mPostGain
  refine ⟨rfl, hs, hG, hle, hGr, ?_, ?_, ?_, ?_⟩
  · rw [hGr]; exact dbToAmp_real_pos _
  · rw [hGr]; exact hg1
  · rw [hGr]; exact filterAudio_real env hpow c i
  · rw [filterAudio_real env hpow, abs_mul, abs_mul, abs_mul, abs_of_pos hpre,
      abs_of_pos hpost, abs_of_pos (dbToAmp_real_pos _)]
    exact mul_le_mul_of_nonneg_right
      (mul_le_of_le_one_right (mul_nonneg (abs_nonneg _) hpre.le) hg1) hpost.le

theorem never_boosts_witness :
    (1 : ℝ) ≤ (demoOver ℝ).mRatio ∧
    0 < (filterAudioUpTo (⟨fun a b => a ^ b, Real.exp, 44100⟩ : MathEnv ℝ) (demoOver ℝ)
      ((0 : Fin 2).val + 1) (0 : Fin 2).isLt).mGain ∧
    (filterAudioUpTo (⟨fun a b => a ^ b, Real.exp, 44100⟩ : MathEnv ℝ) (demoOver ℝ)
      ((0 : Fin 2).val + 1) (0 : Fin 2).isLt).mGain ≤ 1 :=
  ⟨by simp [demoOver],
    (never_boosts ⟨fun a b => a ^ b, Real.exp, 44100⟩ (demoOver ℝ) 0 (fun _ _ => rfl)
      (by simp [demoOver])).2.2.2.2.2.1,
    (never_boosts ⟨fun a b => a ^ b, Real.exp, 44100⟩ (demoOver ℝ) 0 (fun _ _ => rfl)
      (by simp [demoOver])).2.2.2.2.2.2.1⟩

end RealGain

section TimeConstants

variable {α : Type} [LinearOrderedField α] {B : Nat}

theorem checkParameterRange_iff_high (v low high : α) (h : low ≤ high) :
    checkParameterRange v (low, high) = true ↔ high ≤ v := by
  rw [checkParameterRange_eq_true_iff]
  exact ⟨fun hh => hh.2, fun hh => ⟨le_trans h hh, hh⟩⟩

theorem setAttackTime_of_accepted (env : MathEnv α) (t : α) (c : Compressor α B)
    (h : checkParameterRange t (mAttackTimeRange : ParameterRange α) = false) :
    setAttackTime env t c =
      { c with mAttackGain :=
        if t = 0 then 0 else env.exp (-1 / (env.sampleRate * t / 1000)) } := by
  simp [setAttackTime, h]

theorem setReleaseTime_of_accepted (env : MathEnv α) (t : α) (c : Compressor α B)
    (h : checkParameterRange t (mReleaseTimeRange : ParameterRange α) = false) :
    setReleaseTime env t c =
      { c with mReleaseGain :=
        if t = 0 then 0 else env.exp (-1 / (env.sampleRate * t / 1000)) } := by
  simp [setReleaseTime, h]

theorem envelopeSeq_succ_of_attack_zero (release e : α) (x : Nat → α) (i : Nat)
    (h : envelopeSeq 0 release e x i < |x i|) :
    envelopeSeq 0 release e x (i + 1) = |x i| := by
  simp [envelopeSeq, h]

theorem envelopeSeq_succ_of_zero (e : α) (x : Nat → α) (i : Nat) :
    envelopeSeq 0 0 e x (i + 1) = |x i| := by
  simp [envelopeSeq]

/-- C11: `setAttackTime(0)` and `setReleaseTime(0)` are accepted and set the attack and the
release coefficient to exactly 0. With attack coefficient 0, a sample whose magnitude exceeds
the envelope state left by the previous sample puts the envelope at that magnitude on the
same sample; with both coefficients 0, `getEnvelope()` yields `envelope[i] = |buffer[i]|`. -/
theorem zero_time_no_smoothing (env : MathEnv α) (c : Compressor α B) (i : Fin B) :
    (setAttackTime env 0 c).mAttackGain = 0 ∧
    (setReleaseTime env 0 c).mReleaseGain = 0 ∧
    (c.mAttackGain = 0 →
      envelopeSeq c.mAttackGain c.mReleaseGain c.mEnvelopeSample (atIndex c.mBuffer) i.val
        < |c.mBuffer i| →
      (getEnvelope c).mEnvelope i = |c.mBuffer i|) ∧
    (c.mAttackGain = 0 → c.mReleaseGain = 0 → (getEnvelope c).mEnvelope i = |c.mBuffer i|) ∧
    (getEnvelope (setReleaseTime env 0 (setAttackTime env 0 c))).mEnvelope i = |c.mBuffer i| := by
  have h0 : checkParameterRange (0 : α) (mAttackTimeRange : ParameterRange α) = false :=
    checkParameterRange_of_lt _ _ (by simp [mAttackTimeRange])
  have h1 : checkParameterRange (0 : α) (mReleaseTimeRange : ParameterRange α) = false :=
    checkParameterRange_of_lt _ _ (by simp [mReleaseTimeRange])
  have hx : atIndex c.mBuffer i.val = c.mBuffer i := atIndex_of_lt c.mBuffer i.val i.isLt
  refine ⟨?_, ?_, ?_, ?_, ?_⟩
  · rw [setAttackTime_of_accepted env 0 c h0]
    simp
  · rw [setReleaseTime_of_accepted env 0 c h1]
    simp
  · intro ha hlt
    rw [getEnvelope_mEnvelope]
    rw [ha] at hlt ⊢
    rw [← hx] at hlt ⊢
    exact envelopeSeq_succ_of_attack_zero _ _ _ _ hlt
  · intro ha hr
    rw [getEnvelope_mEnvelope, ha, hr, envelopeSeq_succ_of_zero, hx]
  · rw [setAttackTime_of_accepted env 0 c h0, setReleaseTime_of_accepted env 0 _ h1,
      getEnvelope_mEnvelope]
    simp only [if_true]
    rw [envelopeSeq_succ_of_zero, hx]

/-- C12: for every accepted time `t`, `setAttackTime(t)` sets the attack coefficient to
`exp(-1 / (sampleRate * t / 1000))` when `t ≠ 0` and to 0 when `t = 0` and changes no other
member; `setReleaseTime(t)` does the same for the release coefficient; and the constructor
leaves the coefficients derived from attack 1 ms and release 1500 ms. -/
theorem time_constant_derivation (env : MathEnv α) (c : Compressor α B) (t : α)
    (h : checkParameterRange t (mAttackTimeRange : ParameterRange α) = false) :
    setAttackTime env t c =
      { c with mAttackGain :=
        if t = 0 then 0 else env.exp (-1 / (env.sampleRate * t / 1000)) } ∧
    setReleaseTime env t c =
      { c with mReleaseGain :=
        if t = 0 then 0 else env.exp (-1 / (env.sampleRate * t / 1000)) } ∧
    Compressor.construct env c =
      { c with
        mAttackGain := env.exp (-1 / (env.sampleRate * 1 / 1000))
        mReleaseGain := env.exp (-1 / (env.sampleRate * 1500 / 1000)) } := by
  have h1 : checkParameterRange (1 : α) (mAttackTimeRange : ParameterRange α) = false :=
    checkParameterRange_of_lt _ _ (by simp only [mAttackTimeRange]; norm_num)
  have h2 : checkParameterRange (1500 : α) (mReleaseTimeRange : ParameterRange α) = false :=
    checkParameterRange_of_lt _ _ (by simp only [mReleaseTimeRange]; norm_num)
  refine ⟨setAttackTime_of_accepted env t c h, setReleaseTime_of_accepted env t c h, ?_⟩
  unfold Compressor.construct
  rw [setAttackTime_of_accepted env 1 c h1, setReleaseTime_of_accepted env 1500 _ h2]
  simp

theorem time_constant_derivation_witness :
    checkParameterRange (10 : ℚ) (mAttackTimeRange : ParameterRange ℚ) = false ∧
    setAttackTime demoEnv 10 demo =
      { demo with mAttackGain :=
        if (10 : ℚ) = 0 then 0 else demoEnv.exp (-1 / (demoEnv.sampleRate * 10 / 1000)) } :=
  ⟨by simp [checkParameterRange, mAttackTimeRange]; norm_num,
    (time_constant_derivation demoEnv demo 10
      (by simp [checkParameterRange, mAttackTimeRange]; norm_num)).1⟩

/-- C17: for each of the five declared ranges and every value `v`, `checkParameterRange`
returns true exactly when `v` is at least the upper bound; then the setter changes nothing,
and otherwise (every `v` below the upper bound, values below the lower bound included) the
value is stored, or for the attack and release time used to derive the coefficient. -/
theorem setters_acceptance_rule (env : MathEnv α) (c : Compressor α B) (v : α) :
    ((checkParameterRange v (mAttackTimeRange : ParameterRange α) = true ↔ 2000 ≤ v) ∧
      setAttackTime env v c =
        if 2000 ≤ v then c
        else { c with mAttackGain :=
          if v = 0 then 0 else env.exp (-1 / (env.sampleRate * v / 1000)) }) ∧
    ((checkParameterRange v (mReleaseTimeRange : ParameterRange α) = true ↔ 2000 ≤ v) ∧
      setReleaseTime env v c =
        if 2000 ≤ v then c
        else { c with mReleaseGain :=
          if v = 0 then 0 else env.exp (-1 / (env.sampleRate * v / 1000)) }) ∧
    ((checkParameterRange v (mThresholdRange : ParameterRange α) = true ↔ 400 ≤ v) ∧
      setThreshold v c = if 400 ≤ v then c else { c with mThreshold := v }) ∧
    ((checkParameterRange v (mRatioRange : ParameterRange α) = true ↔ 20 ≤ v) ∧
      setRatio v c = if 20 ≤ v then c else { c with mRatio := v }) ∧
    ((checkParameterRange v (mGainRange : ParameterRange α) = true ↔ 30 ≤ v) ∧
      setPreGain v c = (if 30 ≤ v then c else { c with mPreGain := v }) ∧
      setPostGain v c = (if 30 ≤ v then c else { c with mPostGain := v })) := by
  have ha : checkParameterRange v (mAttackTimeRange : ParameterRange α) = true ↔ 2000 ≤ v :=
    checkParameterRange_iff_high v 0 2000 (by norm_num)
  have hr : checkParameterRange v (mReleaseTimeRange : ParameterRange α) = true ↔ 2000 ≤ v :=
    checkParameterRange_iff_high v 0 2000 (by norm_num)
  have ht : checkParameterRange v (mThresholdRange : ParameterRange α) = true ↔ 400 ≤ v :=
    checkParameterRange_iff_high v (-30) 400 (by norm_num)
  have hq : checkParameterRange v (mRatioRange : ParameterRange α) = true ↔ 20 ≤ v :=
    checkParameterRange_iff_high v 1 20 (by norm_num)
  have hg : checkParameterRange v (mGainRange : ParameterRange α) = true ↔ 30 ≤ v :=
    checkParameterRange_iff_high v (-30) 30 (by norm_num)
  refine ⟨⟨ha, ?_⟩, ⟨hr, ?_⟩, ⟨ht, ?_⟩, ⟨hq, ?_⟩, hg, ?_, ?_⟩
  · unfold setAttackTime; simp only [ha]
  · unfold setReleaseTime; simp only [hr]
  · unfold setThreshold; simp only [ht]
  · unfold setRatio; simp only [hq]
  · unfold setPreGain; simp only [hg]
  · unfold setPostGain; simp only [hg]

end TimeConstants

section Invariants

variable {α : Type} [LinearOrderedField α] {B : Nat}

theorem setter_mCurrentSample (env : MathEnv α) (c : Compressor α B) (v : α) :
    (setAttackTime env v c).mCurrentSample = c.mCurrentSample ∧
    (setReleaseTime env v c).mCurrentSample = c.mCurrentSample ∧
    (setThreshold v c).mCurrentSample = c.mCurrentSample ∧
    (setRatio v c).mCurrentSample = c.mCurrentSample ∧
    (setPreGain v c).mCurrentSample = c.mCurrentSample ∧
    (setPostGain v c).mCurrentSample = c.mCurrentSample := by
  refine ⟨?_, ?_, ?_, ?_, ?_, ?_⟩
  · unfold setAttackTime; split <;> rfl
  · unfold setReleaseTime; split <;> rfl
  · unfold setThreshold; split <;> rfl
  · unfold setRatio; split <;> rfl
  · unfold setPreGain; split <;> rfl
  · unfold setPostGain; split <;> rfl

/-- One `getOutput()` call from a cursor within bounds: it returns, the cursor stays within
bounds, and an active call reads `mBuffer` at an index `j < B` and leaves the cursor at
`j + 1`. -/
theorem getOutput_cursor (env : MathEnv α) (c : Compressor α B) (u : Upstream α) (hB : 0 < B)
    (hc : c.mCurrentSample ≤ B) :
    ∃ x c1 u1, getOutput env c u = some (x, c1, u1) ∧ c1.mCurrentSample ≤ B ∧
      (c.mActive = true →
        ∃ (j : Nat) (hj : j < B), c1.mCurrentSample = j + 1 ∧ x = c1.mBuffer ⟨j, hj⟩) := by
  by_cases hact : c.mActive = true
  · by_cases hcur : c.mCurrentSample = B
    · exact ⟨_, _, _, getOutput_refill env c u hB hact hcur, hB, fun _ => ⟨0, hB, rfl, rfl⟩⟩
    · have hlt : c.mCurrentSample < B := lt_of_le_of_ne hc hcur
      exact ⟨_, _, _, getOutput_buffered env c u hact hlt, hlt,
        fun _ => ⟨c.mCurrentSample, hlt, rfl, rfl⟩⟩
  · have hf : c.mActive = false := by simpa using hact
    exact ⟨_, _, _, getOutput_bypass env c u hf, hc, fun h => absurd h hact⟩

theorem applyCall_cursor (env : MathEnv α) (s : Compressor α B × Upstream α) (hB : 0 < B)
    (hc : s.1.mCurrentSample ≤ B) (call : Call α) :
    ∃ s1, applyCall env s call = some s1 ∧ s1.1.mCurrentSample ≤ B := by
  cases call with
  | attackTime v => exact ⟨_, rfl, by rw [(setter_mCurrentSample env s.1 v).1]; exact hc⟩
  | releaseTime v => exact ⟨_, rfl, by rw [(setter_mCurrentSample env s.1 v).2.1]; exact hc⟩
  | threshold v => exact ⟨_, rfl, by rw [(setter_mCurrentSample env s.1 v).2.2.1]; exact hc⟩
  | ratio v => exact ⟨_, rfl, by rw [(setter_mCurrentSample env s.1 v).2.2.2.1]; exact hc⟩
  | preGain v => exact ⟨_, rfl, by rw [(setter_mCurrentSample env s.1 v).2.2.2.2.1]; exact hc⟩
  | postGain v => exact ⟨_, rfl, by rw [(setter_mCurrentSample env s.1 v).2.2.2.2.2]; exact hc⟩
  | output =>
    obtain ⟨x, c1, u1, hout, hle, _⟩ := getOutput_cursor env s.1 s.2 hB hc
    exact ⟨(c1, u1), by simp [applyCall, hout], hle⟩

theorem applyCalls_cursor (env : MathEnv α) (hB : 0 < B) (calls : List (Call α)) :
    ∀ s : Compressor α B × Upstream α, s.1.mCurrentSample ≤ B →
      ∃ s1, applyCalls env calls s = some s1 ∧ s1.1.mCurrentSample ≤ B := by
  induction calls with
  | nil => exact fun s hc => ⟨s, rfl, hc⟩
  | cons call rest ih =>
    intro s hc
    obtain ⟨s1, h1, hc1⟩ := applyCall_cursor env s hB hc call
    obtain ⟨s2, h2, hc2⟩ := ih s1 hc1
    exact ⟨s2, by simp [applyCalls, h1, h2], hc2⟩

/-- C18: for a positive block size `B`, if the cursor is at most `B` before a `getOutput()`
call then the call returns (its read of `mBuffer` is in bounds), the cursor is at most `B`
afterwards, and after an active call the cursor is `j + 1` for the index `j < B` that was
read, hence in `1..B`; no setter changes the cursor; so after every sequence of interface
calls the cursor is still at most `B` and every `getOutput()` in it returned. -/
theorem cursor_invariant (env : MathEnv α) (c : Compressor α B) (u : Upstream α) (v : α)
    (calls : List (Call α)) (hB : 0 < B) (hc : c.mCurrentSample ≤ B) :
    (∃ x c1 u1, getOutput env c u = some (x, c1, u1) ∧ c1.mCurrentSample ≤ B ∧
      (c.mActive = true →
        ∃ (j : Nat) (hj : j < B), c1.mCurrentSample = j + 1 ∧ x = c1.mBuffer ⟨j, hj⟩)) ∧
    ((setAttackTime env v c).mCurrentSample = c.mCurrentSample ∧
      (setReleaseTime env v c).mCurrentSample = c.mCurrentSample ∧
      (setThreshold v c).mCurrentSample = c.mCurrentSample ∧
      (setRatio v c).mCurrentSample = c.mCurrentSample ∧
      (setPreGain v c).mCurrentSample = c.mCurrentSample ∧
      (setPostGain v c).mCurrentSample = c.mCurrentSample) ∧
    (∃ s1, applyCalls env calls (c, u) = some s1 ∧ s1.1.mCurrentSample ≤ B) :=
  ⟨getOutput_cursor env c u hB hc, setter_mCurrentSample env c v,
    applyCalls_cursor env hB calls (c, u) hc⟩

theorem cursor_invariant_witness :
    ∃ s1, applyCalls demoEnv [Call.output, Call.ratio (1 / 2), Call.output, Call.output]
      (demo, demoUpstream) = some s1 ∧ s1.1.mCurrentSample ≤ 2 :=
  (cursor_invariant demoEnv demo demoUpstream 0
    [Call.output, Call.ratio (1 / 2), Call.output, Call.output] (by decide)
    (by simp [demo, demoOver])).2.2

/-- One follower step with a coefficient in `[0, 1]` lands between the previous envelope
value and the peak. -/
theorem follower_step_between (g prev peak : α) (h0 : 0 ≤ g) (h1 : g ≤ 1) :
    min prev peak ≤ peak + g * (prev - peak) ∧ peak + g * (prev - peak) ≤ max prev peak := by
  rcases le_total prev peak with h | h
  · rw [min_eq_left h, max_eq_right h]
    have hd : prev - peak ≤ 0 := sub_nonpos.mpr h
    constructor
    · have : prev - peak ≤ g * (prev - peak) := by
        have := mul_le_mul_of_nonpos_right h1 hd
        simpa using this
      linarith
    · have : g * (prev - peak) ≤ 0 := mul_nonpos_of_nonneg_of_nonpos h0 hd
      linarith
  · rw [min_eq_right h, max_eq_left h]
    have hd : 0 ≤ prev - peak := sub_nonneg.mpr h
    constructor
    · have : 0 ≤ g * (prev - peak) := mul_nonneg h0 hd
      linarith
    · have : g * (prev - peak) ≤ prev - peak := by
        have := mul_le_mul_of_nonneg_right h1 hd
        simpa using this
      linarith

theorem envelopeSeq_between (a r e : α) (x : Nat → α) (ha0 : 0 ≤ a) (ha1 : a ≤ 1)
    (hr0 : 0 ≤ r) (hr1 : r ≤ 1) (k : Nat) :
    min (envelopeSeq a r e x k) |x k| ≤ envelopeSeq a r e x (k + 1) ∧
    envelopeSeq a r e x (k + 1) ≤ max (envelopeSeq a r e x k) |x k| := by
  simp only [envelopeSeq]
  split
  · exact follower_step_between a _ _ ha0 ha1
  · exact follower_step_between r _ _ hr0 hr1

theorem envelopeSeq_nonneg (a r e : α) (x : Nat → α) (ha0 : 0 ≤ a) (ha1 : a ≤ 1)
    (hr0 : 0 ≤ r) (hr1 : r ≤ 1) (he : 0 ≤ e) (k : Nat) : 0 ≤ envelopeSeq a r e x k := by
  induction k with
  | zero => exact he
  | succ k ih =>
    exact le_trans (le_min ih (abs_nonneg _)) (envelopeSeq_between a r e x ha0 ha1 hr0 hr1 k).1

theorem envelopeSeq_le (a r e : α) (x : Nat → α) (ha0 : 0 ≤ a) (ha1 : a ≤ 1)
    (hr0 : 0 ≤ r) (hr1 : r ≤ 1) (M : α) (he : e ≤ M) (k : Nat) (hx : ∀ j, j < k → |x j| ≤ M) :
    envelopeSeq a r e x k ≤ M := by
  induction k with
  | zero => exact he
  | succ k ih =>
    exact le_trans (envelopeSeq_between a r e x ha0 ha1 hr0 hr1 k).2
      (max_le (ih (fun j hj => hx j (Nat.lt_succ_of_lt hj))) (hx k (Nat.lt_succ_self k)))

/-- The envelope value that precedes sample `i` in `getEnvelope`: the incoming envelope state
for `i = 0`, the stored `envelope[i-1]` otherwise. -/
theorem previous_envelope (c : Compressor α B) (i : Fin B) :
    (if i.val = 0 then c.mEnvelopeSample
      else (getEnvelope c).mEnvelope ⟨i.val - 1, by omega⟩) =
      envelopeSeq c.mAttackGain c.mReleaseGain c.mEnvelopeSample (atIndex c.mBuffer) i.val := by
  by_cases h : i.val = 0
  · rw [if_pos h, h]
    rfl
  · rw [if_neg h, getEnvelope_mEnvelope]
    have : i.val - 1 + 1 = i.val := by omega
    simp only [this]

/-- C19: with attack and release coefficients in `[0, 1]` and a non-negative incoming envelope
state, every value `getEnvelope()` stores lies between the previous envelope value and the
peak `|buffer[i]|`, is non-negative, and is at most the maximum of the incoming state and all
the peaks of the block. -/
theorem envelope_bounds (c : Compressor α B) (i : Fin B)
    (ha0 : 0 ≤ c.mAttackGain) (ha1 : c.mAttackGain ≤ 1)
    (hr0 : 0 ≤ c.mReleaseGain) (hr1 : c.mReleaseGain ≤ 1) (he : 0 ≤ c.mEnvelopeSample) :
    min (if i.val = 0 then c.mEnvelopeSample
        else (getEnvelope c).mEnvelope ⟨i.val - 1, by omega⟩) |c.mBuffer i|
      ≤ (getEnvelope c).mEnvelope i ∧
    (getEnvelope c).mEnvelope i ≤
      max (if i.val = 0 then c.mEnvelopeSample
        else (getEnvelope c).mEnvelope ⟨i.val - 1, by omega⟩) |c.mBuffer i| ∧
    0 ≤ (getEnvelope c).mEnvelope i ∧
    (getEnvelope c).mEnvelope i ≤
      Finset.univ.fold max c.mEnvelopeSample (fun j : Fin B => |c.mBuffer j|) := by
  have hx : atIndex c.mBuffer i.val = c.mBuffer i := atIndex_of_lt c.mBuffer i.val i.isLt
  have hb := envelopeSeq_between c.mAttackGain c.mReleaseGain c.mEnvelopeSample
    (atIndex c.mBuffer) ha0 ha1 hr0 hr1 i.val
  rw [hx] at hb
  rw [previous_envelope, getEnvelope_mEnvelope]
  refine ⟨hb.1, hb.2, envelopeSeq_nonneg _ _ _ _ ha0 ha1 hr0 hr1 he _, ?_⟩
  refine envelopeSeq_le _ _ _ _ ha0 ha1 hr0 hr1 _ ?_ _ ?_
  · exact (Finset.le_fold_max _).mpr (Or.inl le_rfl)
  · intro j hj
    have hjB : j < B := lt_of_lt_of_le hj i.isLt
    rw [atIndex_of_lt c.mBuffer j hjB]
    exact (Finset.le_fold_max _).mpr (Or.inr ⟨⟨j, hjB⟩, Finset.mem_univ _, le_rfl⟩)

theorem envelope_bounds_witness : 0 ≤ (getEnvelope demoSmooth).mEnvelope 1 :=
  (envelope_bounds demoSmooth 1 (by norm_num [demoSmooth]) (by norm_num [demoSmooth])
    (by norm_num [demoSmooth]) (by norm_num [demoSmooth])
    (by simp [demoSmooth, demo, demoOver])).2.2.1

end Invariants

section Examples

variable {B : Nat}

theorem amp_minus_six_pow : ((10 : ℝ) ^ ((-6 : ℝ) / 20)) ^ (10 : ℕ) = 1 / 1000 := by
  rw [← Real.rpow_natCast, ← Real.rpow_mul (by norm_num : (0 : ℝ) ≤ 10)]
  have : (-6 : ℝ) / 20 * ((10 : ℕ) : ℝ) = -(3 : ℕ) := by norm_num
  rw [this, Real.rpow_neg (by norm_num), Real.rpow_natCast]
  norm_num

theorem amp_minus_six_bounds :
    (501 / 1000 : ℝ) < (10 : ℝ) ^ ((-6 : ℝ) / 20) ∧
    (10 : ℝ) ^ ((-6 : ℝ) / 20) < 502 / 1000 := by
  have hx : (0 : ℝ) < (10 : ℝ) ^ ((-6 : ℝ) / 20) := Real.rpow_pos_of_pos (by norm_num) _
  constructor
  · by_contra h
    have h1 := pow_le_pow_left₀ hx.le (not_lt.mp h) 10
    rw [amp_minus_six_pow] at h1
    norm_num at h1
  · by_contra h
    have h1 := pow_le_pow_left₀ (by norm_num : (0 : ℝ) ≤ 502 / 1000) (not_lt.mp h) 10
    rw [amp_minus_six_pow] at h1
    norm_num at h1

/-- C13: with threshold -10, ratio 4 and an envelope value of -2 for sample `i`, the slope is
0.75, the gain reduction is `min(0, 0.75 * (-10 - (-2))) = -6` dB, its linear factor
`10^(-6/20)` lies strictly between 0.501 and 0.502, and the filtered sample is
`input * 10^(preGain/20) * 10^(-6/20) * 10^(postGain/20)`. -/
theorem worked_example (env : MathEnv ℝ) (c : Compressor ℝ B) (i : Fin B)
    (hpow : ∀ a b : ℝ, env.pow a b = a ^ b) (ht : c.mThreshold = -10) (hr : c.mRatio = 4)
    (he : (filterAudio env c).mEnvelope i = -2) :
    (filterAudio env c).mSlope = 3 / 4 ∧
    min 0 ((filterAudio env c).mSlope *
      ((filterAudio env c).mThreshold - (filterAudio env c).mEnvelope i)) = -6 ∧
    (501 / 1000 : ℝ) < (10 : ℝ) ^ ((-6 : ℝ) / 20) ∧
    (10 : ℝ) ^ ((-6 : ℝ) / 20) < 502 / 1000 ∧
    (filterAudio env c).mBuffer i =
      c.mBuffer i * (10 : ℝ) ^ (c.mPreGain / 20) * (10 : ℝ) ^ ((-6 : ℝ) / 20) *
        (10 : ℝ) ^ (c.mPostGain / 20) := by
  have hs : (filterAudio env c).mSlope = 3 / 4 := by
    rw [filterAudio_mSlope, hr]; norm_num
  have hg : min 0 ((filterAudio env c).mSlope *
      ((filterAudio env c).mThreshold - (filterAudio env c).mEnvelope i)) = -6 := by
    rw [hs, filterAudio_mThreshold, ht, he]
    norm_num
  refine ⟨hs, hg, amp_minus_six_bounds.1, amp_minus_six_bounds.2, ?_⟩
  rw [filterAudio_real env hpow, hg]

theorem demoWorked_envelope :
    (filterAudio (⟨fun a b => a ^ b, Real.exp, 44100⟩ : MathEnv ℝ) (demoWorked ℝ)).mEnvelope 0
      = -2 := by
  rw [filterAudio_mEnvelope, applyPreGain_real _ (fun _ _ => rfl), getEnvelope_mEnvelope]
  simp [envelopeSeq, atIndex, demoWorked, demoOver]
  norm_num

theorem worked_example_witness :
    (filterAudio (⟨fun a b => a ^ b, Real.exp, 44100⟩ : MathEnv ℝ) (demoWorked ℝ)).mBuffer 0 =
      (demoWorked ℝ).mBuffer 0 * (10 : ℝ) ^ ((demoWorked ℝ).mPreGain / 20) *
        (10 : ℝ) ^ ((-6 : ℝ) / 20) * (10 : ℝ) ^ ((demoWorked ℝ).mPostGain / 20) :=
  (worked_example ⟨fun a b => a ^ b, Real.exp, 44100⟩ (demoWorked ℝ) 0 (fun _ _ => rfl) rfl rfl
    demoWorked_envelope).2.2.2.2

/-- C14: the ratio invariant is broken by a setter call. From ratio 2, `setRatio(0.5)` is
accepted and leaves ratio 0.5, below 1, for which `calculateSlope` gives the slope -1, outside
`[0, 1)`; `setRatio(0)` is accepted too and leaves the divisor of `1/ratio` at 0. -/
theorem ratio_invariant_broken :
    (1 : ℚ) ≤ demo.mRatio ∧
    (applyCalls demoEnv [Call.ratio (1 / 2)] (demo, demoUpstream)).map (fun s => s.1.mRatio)
      = some (1 / 2) ∧
    ¬ (1 : ℚ) ≤ (setRatio (1 / 2) demo).mRatio ∧
    (calculateSlope (setRatio (1 / 2) demo)).mSlope = -1 ∧
    (setRatio 0 demo).mRatio = 0 := by
  simp [applyCalls, applyCall, checkParameterRange, setRatio, calculateSlope, mRatioRange, demo,
    demoOver]
  norm_num

/-- C20: the coefficient invariant is broken by a setter call. On a constructed compressor at
44100 Hz, `setAttackTime(-1)` is accepted and sets the attack coefficient to
`exp(-1 / (44100 * (-1) / 1000))`, which is greater than 1; `setReleaseTime(-1)` does the
same to the release coefficient. -/
theorem coefficient_invariant_broken :
    1 < (setAttackTime (⟨fun a b => a ^ b, Real.exp, 44100⟩ : MathEnv ℝ) (-1)
      (Compressor.construct ⟨fun a b => a ^ b, Real.exp, 44100⟩ (demoOver ℝ))).mAttackGain ∧
    1 < (setReleaseTime (⟨fun a b => a ^ b, Real.exp, 44100⟩ : MathEnv ℝ) (-1)
      (Compressor.construct ⟨fun a b => a ^ b, Real.exp, 44100⟩ (demoOver ℝ))).mReleaseGain := by
  have h1 : checkParameterRange (-1 : ℝ) (mAttackTimeRange : ParameterRange ℝ) = false :=
    checkParameterRange_of_lt _ _ (by simp only [mAttackTimeRange]; norm_num)
  have h2 : checkParameterRange (-1 : ℝ) (mReleaseTimeRange : ParameterRange ℝ) = false :=
    checkParameterRange_of_lt _ _ (by simp only [mReleaseTimeRange]; norm_num)
  rw [setAttackTime_of_accepted _ _ _ h1, setReleaseTime_of_accepted _ _ _ h2]
  have hne : ¬ ((-1 : ℝ) = 0) := by norm_num
  simp only [hne, if_false]
  have hpos : (0 : ℝ) < -1 / (44100 * -1 / 1000) := by norm_num
  exact ⟨Real.one_lt_exp_iff.mpr hpos, Real.one_lt_exp_iff.mpr hpos⟩

end Examples

section Routing

variable {α : Type} [LinearOrderedField α]

/-- The contribution of a child to the routing sum: `getOutput() * gain`. -/
theorem sumLoop_fst (ds : List (Device α)) :
    ∀ acc : α, (RouteDevice.sumLoop acc ds).1 =
      acc + ((ds.filter (fun d => d.active)).map
        (fun d => d.source.samples d.source.pulled * d.gain)).sum := by
  induction ds with
  | nil => intro acc; simp [RouteDevice.sumLoop]
  | cons d ds ih =>
    intro acc
    simp only [RouteDevice.sumLoop, ih, getInput]
    by_cases hd : d.active = true
    · simp [hd, add_assoc]
    · simp [hd]

theorem sumLoop_snd (ds : List (Device α)) :
    ∀ acc : α, (RouteDevice.sumLoop acc ds).2 = ds.map Device.pulledOnce := by
  induction ds with
  | nil => intro acc; simp [RouteDevice.sumLoop]
  | cons d ds ih =>
    intro acc
    simp only [RouteDevice.sumLoop, ih, List.map_cons, Device.pulledOnce]

theorem getOutput_eq_sum (ds : List (Device α)) :
    (RouteDevice.getOutput ds).1 =
      ((ds.filter (fun d => d.active)).map
        (fun d => d.source.samples d.source.pulled * d.gain)).sum := by
  rw [RouteDevice.getOutput, sumLoop_fst, zero_add]

theorem outputAt_route (ch : Channel α) (sum : α) (fuel : Nat) :
    Channel.outputAt ch sum fuel Link.route = some sum := by
  cases fuel <;> rfl

/-- C15: the routing node returns the exact sum of `child.getOutput() * child.gain` over the
active children; the sum is the same for every order of registration; every registered child
is pulled exactly once; the result is 0 when no child is active; and a channel with an empty
effect chain returns the routing sum of its children. -/
theorem routing_sum (ds : List (Device α)) (ch : Channel α) (fuel : Nat) :
    (RouteDevice.getOutput ds).1 =
      ((ds.filter (fun d => d.active)).map
        (fun d => (getInput d.source).1 * d.gain)).sum ∧
    (∀ ds2 : List (Device α), ds.Perm ds2 →
      (RouteDevice.getOutput ds2).1 = (RouteDevice.getOutput ds).1) ∧
    (RouteDevice.getOutput ds).2 = ds.map Device.pulledOnce ∧
    (∀ d : Device α, (Device.pulledOnce d).source.pulled = d.source.pulled + 1) ∧
    ((∀ d ∈ ds, d.active = false) → (RouteDevice.getOutput ds).1 = 0) ∧
    (RouteDevice.getOutput ([] : List (Device α))).1 = 0 ∧
    (ch.mEffectChainEnd = Link.route →
      Channel.getOutput fuel ch =
        some ((RouteDevice.getOutput ch.mChannelIn).1,
          { ch with mChannelIn := ch.mChannelIn.map Device.pulledOnce })) := by
  refine ⟨getOutput_eq_sum ds, ?_, sumLoop_snd ds 0, fun d => rfl, ?_, rfl, ?_⟩
  · intro ds2 hp
    rw [getOutput_eq_sum, getOutput_eq_sum]
    exact (((hp.filter _).map _).sum_eq).symm
  · intro h
    rw [getOutput_eq_sum]
    have : ds.filter (fun d => d.active) = [] := by
      rw [List.filter_eq_nil_iff]
      intro d hd
      simp [h d hd]
    rw [this]
    rfl
  · intro h
    simp only [Channel.getOutput, h, outputAt_route, Option.map_some']
    rw [RouteDevice.getOutput, sumLoop_snd]

theorem routing_sum_witness :
    (Channel.getOutput 0
      (Channel.addDevice (chordVoices.get ⟨2, by decide⟩)
        (Channel.addDevice (chordVoices.get ⟨1, by decide⟩)
          (Channel.addDevice (chordVoices.get ⟨0, by decide⟩) emptyChannel)))).map
        (fun r => r.1) = some (6 / 10) := by
  have h := (routing_sum chordVoices
    (Channel.addDevice (chordVoices.get ⟨2, by decide⟩)
      (Channel.addDevice (chordVoices.get ⟨1, by decide⟩)
        (Channel.addDevice (chordVoices.get ⟨0, by decide⟩) emptyChannel))) 0).2.2.2.2.2.2 rfl
  rw [h]
  simp [RouteDevice.getOutput, RouteDevice.sumLoop, getInput, Channel.addDevice,
    RouteDevice.add, chordVoices, emptyChannel]
  norm_num

end Routing

section EffectChain

variable {α : Type} [LinearOrderedField α]

/-- C16, as stated for every channel, fails: on a channel whose chain already holds effect 0,
adding effects 1 and 2 and removing 1 leaves the input of effect 2 wired to effect 0, not to
the routing sum. -/
theorem effect_chain_relinking_not_every_channel :
    ¬ (∀ (ch : Channel ℚ) (e1 e2 : Nat), e1 ≠ e2 →
      (Channel.removeEffect e1 (Channel.addEffect e2 (Channel.addEffect e1 ch))).input e2
        = Link.route) := by
  intro h
  have h1 := h (Channel.addEffect 0 emptyChannel) 1 2 (by decide)
  simp [Channel.removeEffect, Channel.addEffect, Function.update] at h1

/-- C16, amended: for every channel, adding `E1`, then `E2`, then removing `E1` leaves `E2` as
the chain end with its input wired to what was the chain end before `E1` was added; on a
channel whose effect chain is empty before `E1` is added this is the routing sum, no input
link and no chain end refers to `E1`, and the channel output is `E2` applied to the routing
sum. In general `add(Effect)` wires the new effect's input to the previous chain end, makes
it the chain end and touches no other link; the channel output is the output of the chain
end, and the routing sum when the chain is empty. -/
theorem effect_chain_relinking (ch : Channel α) (e1 e2 : Nat) (fuel : Nat) (hne : e1 ≠ e2)
    (hempty : ch.mEffectChainEnd = Link.route) :
    (Channel.removeEffect e1 (Channel.addEffect e2 (Channel.addEffect e1 ch))).mEffectChainEnd
      = Link.effect e2 ∧
    (Channel.removeEffect e1 (Channel.addEffect e2 (Channel.addEffect e1 ch))).input e2
      = Link.route ∧
    (∀ k, (Channel.removeEffect e1 (Channel.addEffect e2 (Channel.addEffect e1 ch))).input k
      ≠ Link.effect e1) ∧
    Channel.getOutput (fuel + 1)
        (Channel.removeEffect e1 (Channel.addEffect e2 (Channel.addEffect e1 ch))) =
      some (ch.process e2 (RouteDevice.getOutput ch.mChannelIn).1,
        { Channel.removeEffect e1 (Channel.addEffect e2 (Channel.addEffect e1 ch)) with
          mChannelIn := (RouteDevice.getOutput ch.mChannelIn).2 }) ∧
    (∀ c : Channel α,
      (Channel.removeEffect e1 (Channel.addEffect e2 (Channel.addEffect e1 c))).mEffectChainEnd
        = Link.effect e2 ∧
      (Channel.removeEffect e1 (Channel.addEffect e2 (Channel.addEffect e1 c))).input e2
        = c.mEffectChainEnd) ∧
    (∀ (c : Channel α) (e : Nat),
      (Channel.addEffect e c).input e = c.mEffectChainEnd ∧
      (Channel.addEffect e c).mEffectChainEnd = Link.effect e ∧
      (∀ k, k ≠ e → (Channel.addEffect e c).input k = c.input k) ∧
      (c.mEffectChainEnd = Link.route →
        Channel.getOutput fuel c =
          some ((RouteDevice.getOutput c.mChannelIn).1,
            { c with mChannelIn := (RouteDevice.getOutput c.mChannelIn).2 })) ∧
      Channel.getOutput (fuel + 1) (Channel.addEffect e c) =
        (Channel.outputAt (Channel.addEffect e c) (RouteDevice.getOutput c.mChannelIn).1 fuel
            c.mEffectChainEnd).map
          (fun x => (c.process e x,
            { Channel.addEffect e c with
              mChannelIn := (RouteDevice.getOutput c.mChannelIn).2 }))) := by
  have hne2 : e2 ≠ e1 := fun h => hne h.symm
  have hl : Link.effect e2 ≠ Link.effect e1 := fun h => hne2 (Link.effect.inj h)
  have htailAll : ∀ c : Channel α, (Channel.removeEffect e1
      (Channel.addEffect e2 (Channel.addEffect e1 c))).mEffectChainEnd = Link.effect e2 := by
    intro c
    simp [Channel.removeEffect, Channel.addEffect, hl]
  have hinAll : ∀ c : Channel α, (Channel.removeEffect e1
      (Channel.addEffect e2 (Channel.addEffect e1 c))).input e2 = c.mEffectChainEnd := by
    intro c
    simp [Channel.removeEffect, Channel.addEffect, Function.update, hne, hne2]
  have htail := htailAll ch
  have hin : (Channel.removeEffect e1
      (Channel.addEffect e2 (Channel.addEffect e1 ch))).input e2 = Link.route := by
    rw [hinAll ch, hempty]
  refine ⟨htail, hin, ?_, ?_, fun c => ⟨htailAll c, hinAll c⟩, ?_⟩
  · intro k
    simp only [Channel.removeEffect, Channel.addEffect]
    split
    · simp [Function.update, hne, hempty]
    · assumption
  · simp only [Channel.getOutput, htail, Channel.outputAt, hin, outputAt_route,
      Option.map_some']
    rfl
  · intro c e
    refine ⟨by simp [Channel.addEffect], rfl, ?_, ?_, ?_⟩
    · intro k hk
      simp [Channel.addEffect, Function.update, hk]
    · intro h
      simp only [Channel.getOutput, h, outputAt_route, Option.map_some']
    · simp only [Channel.getOutput, Channel.addEffect, Channel.outputAt, Function.update_same,
        Option.map_map]
      rfl

theorem effect_chain_relinking_witness :
    (1 : Nat) ≠ 2 ∧ emptyChannel.mEffectChainEnd = Link.route ∧
    (Channel.removeEffect 1 (Channel.addEffect 2 (Channel.addEffect 1 emptyChannel))).input 2
      = Link.route :=
  ⟨by decide, rfl, (effect_chain_relinking emptyChannel 1 2 0 (by decide) rfl).2.1⟩

end EffectChain

end tsal
